import Mathlib

/-!
Verification development for the DATM annotation tool's canvas engine
(`ui_lib/QtImageAnnotator.py` and the color-table construction in
`datmant.py`).

The raster buffers are modelled as total functions from integer pixel
coordinates to pixel values, together with the canvas shape `(hgt, wdt)`
stored in the state (mirroring `self.shape`).  `cv2.floodFill` with
`loDiff = 0`, `upDiff = 1` on the 0/255-valued images used by the tool
marks exactly the 4-connected component of same-valued, zero-mask pixels
containing the seed; it is modelled by an iterated one-step expansion of
a `Finset` of pixels, proved below to compute that connected component.
-/

namespace Datm

/-- Undo states (`MAX_CTRLZ_STATES = 20`). -/
def MAX_CTRLZ_STATES : Nat := 20

/-- Per-channel tolerance used by the `np.isclose` comparisons
(`PIXMAP_CONV_BUG_ATOL = 2`). -/
def PIXMAP_CONV_BUG_ATOL : Nat := 2

/-- An RGBA pixel of the mask pixmap (byte values). -/
structure Rgba where
  r : Nat
  g : Nat
  b : Nat
  a : Nat
deriving DecidableEq

/-- An RGB triple, the key type of `d_rgb2gray` (the hex string keys of the
Python dict are in bijection with their RGB byte triples). -/
abbrev Rgb := Nat × Nat × Nat

/-- `QColor.name()` / `getRgb()[:-1]`: the RGB part of a color. -/
def Rgba.rgb (p : Rgba) : Rgb := (p.r, p.g, p.b)

/-- A raster buffer: pixel value at column `x`, row `y`. -/
abbrev Grid (α : Type) := Nat → Nat → α

/-- `|a - b| ≤ PIXMAP_CONV_BUG_ATOL` on byte values, the per-channel test
performed by `np.isclose(channel, target, atol=PIXMAP_CONV_BUG_ATOL)`
(the default `rtol` contributes less than 1 on byte values). -/
def near2 (a b : Nat) : Bool := a ≤ b + PIXMAP_CONV_BUG_ATOL && b ≤ a + PIXMAP_CONV_BUG_ATOL

/-- Per-channel color match of a mask pixel against the brush color
(`fillArea`, lines 533-538). -/
def colorNear (p : Rgba) (c : Rgba) : Bool :=
  near2 p.r c.r && near2 p.g c.g && near2 p.b c.b

/-- Per-channel match of two RGB triples. -/
def rgbNear (u v : Rgb) : Bool :=
  near2 u.1 v.1 && near2 u.2.1 v.2.1 && near2 u.2.2 v.2.2

/-- Python `dict` lookup on an association list whose keys are unique
(first match). -/
def plookup {κ β : Type} [DecidableEq κ] : List (κ × β) → κ → Option β
  | [], _ => none
  | (k, v) :: d, key => if k = key then some v else plookup d key

/-- Python `dict` insertion: update the value in place if the key exists,
append otherwise. -/
def pinsert {κ β : Type} [DecidableEq κ] (d : List (κ × β)) (k : κ) (v : β) :
    List (κ × β) :=
  if (plookup d k).isSome then d.map (fun kv => if kv.1 = k then (k, v) else kv)
  else d ++ [(k, v)]

/-- Association-list lookup where the LAST matching entry wins. -/
def plookupLast {κ β : Type} [DecidableEq κ] : List (κ × β) → κ → Option β
  | [], _ => none
  | (k, v) :: d, key =>
      match plookupLast d key with
      | some r => some r
      | none => if k = key then some v else none

/-- Lookup in `d_rgb2gray`. -/
def lookupD : List (Rgb × Nat) → Rgb → Option Nat := plookup

/-- Append to a `collections.deque(maxlen=MAX_CTRLZ_STATES)`, evicting the
oldest element when full.  The head of the list is the most recent frame. -/
def pushB {α : Type} (x : α) (xs : List α) : List α :=
  (x :: xs).take MAX_CTRLZ_STATES

/-! ## Flood fill (`cv2.floodFill` with `loDiff = 0`, `upDiff = 1`) -/

/-- 4-adjacency of pixel coordinates. -/
def adjb (p q : Nat × Nat) : Bool :=
  (p.1 == q.1 && (p.2 == q.2 + 1 || q.2 == p.2 + 1)) ||
  (p.2 == q.2 && (p.1 == q.1 + 1 || q.1 == p.1 + 1))

/-- All in-bounds pixel coordinates of a `w × h` canvas. -/
def univPts (w h : Nat) : Finset (Nat × Nat) :=
  Finset.range w ×ˢ Finset.range h

/-- One growth step of the flood fill: add every in-bounds pixel that
satisfies the fill condition and touches the current region. -/
def expand (w h : Nat) (cond : Nat × Nat → Bool) (S : Finset (Nat × Nat)) :
    Finset (Nat × Nat) :=
  S ∪ (univPts w h).filter (fun q => cond q = true ∧ ∃ p ∈ S, adjb p q = true)

/-- Iterated growth steps. -/
def floodIter (w h : Nat) (cond : Nat × Nat → Bool) :
    Nat → Finset (Nat × Nat) → Finset (Nat × Nat)
  | 0, S => S
  | n + 1, S => floodIter w h cond n (expand w h cond S)

/-- The set of pixels marked by `cv2.floodFill` on a binary image: the
4-connected component, through in-bounds pixels satisfying `cond`, of the
seed.  `cond` combines the zero-mask requirement and the
`loDiff = 0 / upDiff = 1` value test, which on a 0/255 image means "same
value as the seed".  If the seed is out of bounds OpenCV raises instead
(handled at each call site); if the seed itself fails `cond` the fill
marks nothing. -/
def floodRegion (w h : Nat) (cond : Nat × Nat → Bool) (seed : Nat × Nat) :
    Finset (Nat × Nat) :=
  if seed.1 < w ∧ seed.2 < h ∧ cond seed = true then
    floodIter w h cond (w * h) {seed}
  else ∅

theorem mem_univPts {w h : Nat} {p : Nat × Nat} :
    p ∈ univPts w h ↔ p.1 < w ∧ p.2 < h := by
  simp [univPts, Finset.mem_product]

theorem mem_expand {w h : Nat} {cond : Nat × Nat → Bool}
    {S : Finset (Nat × Nat)} {q : Nat × Nat} :
    q ∈ expand w h cond S ↔
      q ∈ S ∨ (q.1 < w ∧ q.2 < h ∧ cond q = true ∧ ∃ p ∈ S, adjb p q = true) := by
  simp only [expand, Finset.mem_union, Finset.mem_filter, mem_univPts]
  tauto

theorem subset_expand {w h : Nat} {cond : Nat × Nat → Bool}
    {S : Finset (Nat × Nat)} : S ⊆ expand w h cond S :=
  Finset.subset_union_left

theorem expand_mono {w h : Nat} {cond : Nat × Nat → Bool}
    {S T : Finset (Nat × Nat)} (hST : S ⊆ T) :
    expand w h cond S ⊆ expand w h cond T := by
  intro q hq
  rcases mem_expand.mp hq with hq | ⟨h1, h2, h3, p, hp, hadj⟩
  · exact mem_expand.mpr (Or.inl (hST hq))
  · exact mem_expand.mpr (Or.inr ⟨h1, h2, h3, p, hST hp, hadj⟩)

theorem floodIter_succ_out (w h : Nat) (cond : Nat × Nat → Bool)
    (n : Nat) (S : Finset (Nat × Nat)) :
    floodIter w h cond (n + 1) S = expand w h cond (floodIter w h cond n S) := by
  induction n generalizing S with
  | zero => rfl
  | succ n ih =>
    show floodIter w h cond (n + 1) (expand w h cond S) = _
    rw [ih]
    rfl

theorem subset_floodIter (w h : Nat) (cond : Nat × Nat → Bool)
    (n : Nat) (S : Finset (Nat × Nat)) : S ⊆ floodIter w h cond n S := by
  induction n generalizing S with
  | zero => exact Finset.Subset.refl S
  | succ n ih =>
    exact Finset.Subset.trans subset_expand (ih (expand w h cond S))

theorem floodIter_subset (w h : Nat) (cond : Nat × Nat → Bool)
    (n : Nat) {S T : Finset (Nat × Nat)} (hST : S ⊆ T) :
    floodIter w h cond n S ⊆ floodIter w h cond n T := by
  induction n generalizing S T with
  | zero => exact hST
  | succ n ih => exact ih (expand_mono hST)

theorem floodIter_of_expand_eq (w h : Nat) (cond : Nat × Nat → Bool)
    {S : Finset (Nat × Nat)} (hS : expand w h cond S = S) (n : Nat) :
    floodIter w h cond n S = S := by
  induction n with
  | zero => rfl
  | succ n ih =>
    rw [floodIter_succ_out, ih, hS]

theorem floodIter_subset_univ (w h : Nat) (cond : Nat × Nat → Bool)
    (n : Nat) {S : Finset (Nat × Nat)} (hS : S ⊆ univPts w h) :
    floodIter w h cond n S ⊆ univPts w h := by
  induction n generalizing S with
  | zero => exact hS
  | succ n ih =>
    apply ih
    intro q hq
    rcases mem_expand.mp hq with hq | ⟨h1, h2, _, _⟩
    · exact hS hq
    · exact mem_univPts.mpr ⟨h1, h2⟩

/-- Either the iteration has stabilized after `n` steps, or it has strictly
grown at every step so far and hence contains more than `n` pixels. -/
theorem floodIter_stab_or_card (w h : Nat) (cond : Nat × Nat → Bool)
    (seed : Nat × Nat) (n : Nat) :
    expand w h cond (floodIter w h cond n {seed}) = floodIter w h cond n {seed} ∨
      n + 1 ≤ (floodIter w h cond n {seed}).card := by
  induction n with
  | zero =>
    right
    simp [floodIter]
  | succ n ih =>
    rcases ih with hstab | hcard
    · left
      rw [floodIter_succ_out, hstab, hstab]
    · by_cases heq : expand w h cond (floodIter w h cond n {seed}) =
        floodIter w h cond n {seed}
      · left
        rw [floodIter_succ_out, heq, heq]
      · right
        rw [floodIter_succ_out]
        have hss : floodIter w h cond n {seed} ⊂
            expand w h cond (floodIter w h cond n {seed}) := by
          refine ⟨subset_expand, fun hc => heq ?_⟩
          exact Finset.Subset.antisymm hc subset_expand
        have := Finset.card_lt_card hss
        omega

theorem univPts_card (w h : Nat) : (univPts w h).card = w * h := by
  simp [univPts]

/-- After `w * h` steps the iteration from an in-bounds seed has reached its
fixed point. -/
theorem expand_floodIter_fix (w h : Nat) (cond : Nat × Nat → Bool)
    {seed : Nat × Nat} (h1 : seed.1 < w) (h2 : seed.2 < h) :
    expand w h cond (floodIter w h cond (w * h) {seed}) =
      floodIter w h cond (w * h) {seed} := by
  rcases floodIter_stab_or_card w h cond seed (w * h) with hstab | hcard
  · exact hstab
  · exfalso
    have hsub : floodIter w h cond (w * h) {seed} ⊆ univPts w h := by
      apply floodIter_subset_univ
      intro q hq
      rw [Finset.mem_singleton] at hq
      subst hq
      exact mem_univPts.mpr ⟨h1, h2⟩
    have := Finset.card_le_card hsub
    rw [univPts_card] at this
    omega

/-- The reachability relation computed by the flood fill: a path of
4-adjacent in-bounds pixels, each satisfying the fill condition. -/
def Reach (w h : Nat) (cond : Nat × Nat → Bool) (seed p : Nat × Nat) : Prop :=
  Relation.ReflTransGen
    (fun a q => adjb a q = true ∧ q.1 < w ∧ q.2 < h ∧ cond q = true) seed p

theorem floodIter_reach (w h : Nat) (cond : Nat × Nat → Bool)
    (seed : Nat × Nat) (n : Nat) :
    ∀ p, p ∈ floodIter w h cond n {seed} → Reach w h cond seed p := by
  induction n with
  | zero =>
    intro p hp
    rw [floodIter, Finset.mem_singleton] at hp
    subst hp
    exact Relation.ReflTransGen.refl
  | succ n ih =>
    intro p hp
    rw [floodIter_succ_out] at hp
    rcases mem_expand.mp hp with hp | ⟨h1, h2, h3, q, hq, hadj⟩
    · exact ih p hp
    · exact Relation.ReflTransGen.tail (ih q hq) ⟨hadj, h1, h2, h3⟩

/-- Characterization of the flood fill: the marked set is exactly the
4-connected component of the seed through in-bounds pixels satisfying the
fill condition, provided the seed is in bounds and itself satisfies it. -/
theorem mem_floodRegion_iff {w h : Nat} {cond : Nat × Nat → Bool}
    {seed : Nat × Nat} (h1 : seed.1 < w) (h2 : seed.2 < h)
    (h3 : cond seed = true) (p : Nat × Nat) :
    p ∈ floodRegion w h cond seed ↔ Reach w h cond seed p := by
  rw [floodRegion, if_pos ⟨h1, h2, h3⟩]
  constructor
  · exact floodIter_reach w h cond seed (w * h) p
  · intro hr
    induction hr with
    | refl =>
      exact subset_floodIter w h cond (w * h) {seed} (Finset.mem_singleton_self seed)
    | tail hab hstep ih =>
      rw [← expand_floodIter_fix w h cond h1 h2]
      exact mem_expand.mpr (Or.inr ⟨hstep.2.1, hstep.2.2.1, hstep.2.2.2, _, ih, hstep.1⟩)

/-- Every pixel marked by the flood fill is in bounds and satisfies the fill
condition (in particular the fill never escapes the canvas). -/
theorem floodIter_mem_cond (w h : Nat) (cond : Nat × Nat → Bool) (n : Nat)
    {S : Finset (Nat × Nat)} {p : Nat × Nat}
    (hp : p ∈ floodIter w h cond n S) :
    p ∈ S ∨ (p.1 < w ∧ p.2 < h ∧ cond p = true) := by
  induction n generalizing S with
  | zero => exact Or.inl hp
  | succ n ih =>
    rcases ih (S := expand w h cond S) hp with hq | hc
    · rcases mem_expand.mp hq with hq | ⟨h1, h2, h3, _⟩
      · exact Or.inl hq
      · exact Or.inr ⟨h1, h2, h3⟩
    · exact Or.inr hc

/-- The seed belongs to the marked set whenever the fill runs at all. -/
theorem seed_mem_floodRegion {w h : Nat} {cond : Nat × Nat → Bool}
    {seed : Nat × Nat} (h1 : seed.1 < w) (h2 : seed.2 < h)
    (h3 : cond seed = true) : seed ∈ floodRegion w h cond seed := by
  rw [floodRegion, if_pos ⟨h1, h2, h3⟩]
  exact subset_floodIter w h cond (w * h) {seed} (Finset.mem_singleton_self seed)

theorem floodRegion_subset {w h : Nat} {cond : Nat × Nat → Bool}
    {seed : Nat × Nat} {p : Nat × Nat} (hp : p ∈ floodRegion w h cond seed) :
    p.1 < w ∧ p.2 < h ∧ cond p = true := by
  rw [floodRegion] at hp
  split at hp
  case isTrue hg =>
    rcases floodIter_mem_cond w h cond (w * h) hp with hs | hc
    · rw [Finset.mem_singleton] at hs
      subst hs
      exact hg
    · exact hc
  case isFalse => exact absurd hp (Finset.not_mem_empty p)

/-! ## Brush geometry

`painter.drawEllipse(a0, b0, r0, r0)` with `a0 = x - d/2` stamps a disc of
diameter `d` centered at the scene position; `painter.drawLine` with a
round-capped pen of width `d` strokes a capsule.  Pixel coverage is modelled
by the standard inclusion test of the pixel center (doubled coordinates avoid
fractions).  Scene positions are modelled at integer precision. -/

/-- Pixel `(x, y)` is covered by the disc of diameter `d` centered at the
scene position `(cx, cy)`. -/
def inDisc (cx cy : Int) (d : Nat) (x y : Nat) : Bool :=
  decide ((2 * (x : Int) + 1 - 2 * cx) ^ 2 + (2 * (y : Int) + 1 - 2 * cy) ^ 2 ≤ (d : Int) ^ 2)

/-- Squared distance from point `(qx, qy)` to the segment from `(ax, ay)` to
`(bx, bY)` is at most `r2` (all in doubled coordinates). -/
def segDistLe (ax ay bx bY qx qy r2 : Int) : Bool :=
  let ux := bx - ax
  let uy := bY - ay
  let vx := qx - ax
  let vy := qy - ay
  let dt := ux * vx + uy * vy
  let len2 := ux * ux + uy * uy
  if dt ≤ 0 then decide (vx * vx + vy * vy ≤ r2)
  else if len2 ≤ dt then decide ((qx - bx) ^ 2 + (qy - bY) ^ 2 ≤ r2)
  else decide ((vx * vx + vy * vy) * len2 - dt * dt ≤ r2 * len2)

/-- Pixel `(x, y)` is covered by the round-capped stroke of width `d` from
`p1` to `p2`. -/
def inCapsule (p1 p2 : Int × Int) (d : Nat) (x y : Nat) : Bool :=
  segDistLe (2 * p1.1) (2 * p1.2) (2 * p2.1) (2 * p2.2)
    (2 * (x : Int) + 1) (2 * (y : Int) + 1) ((d : Int) ^ 2)

/-! ## The annotator state (`QtImageAnnotator`) -/

/-- The state of a `QtImageAnnotator` relevant to the canvas engine.  The
scene handles, cursor decoration and zoom stack are display-only and not
modelled.  `hasImage` stands for `self._pixmapHandle is not None`. -/
structure AnnotState where
  hgt : Nat
  wdt : Nat
  hasImage : Bool
  mask : Grid Rgba
  direct_mask_paint : Bool
  offscreen_mask : Grid Nat
  overlay_stack : List (Grid Rgba)
  offscreen_mask_stack : List (Grid Nat)
  brush_fill_color : Rgba
  brush_diameter : Nat
  eraseMode : Bool
  global_erase_override : Bool
  d_rgb2gray : List (Rgb × Nat)
  d_gray2rgb : List (Nat × Rgb)
  lastPoint : Int × Int
  lastCursorLocation : Int × Int

/-- QtImageAnnotator.fillMarker (lines 449-481): stamp a disc of the brush
color (or clear it in erase mode) on the mask pixmap, and in direct mode
stamp the class code `tc = d_rgb2gray[brush_fill_color.name()]` identically
on the off-screen mask.  The mask pixmap is painted before the direct-mode
block runs, so a missing conversion table (RuntimeError) or an unknown brush
color (KeyError) leaves the two buffers out of step; the raised exception is
reported in the second component. -/
def fillMarker (ev : Int × Int) (s : AnnotState) : AnnotState × Bool :=
  let stamped : Grid Rgba := fun x y =>
    if inDisc ev.1 ev.2 s.brush_diameter x y then
      (if s.eraseMode then ⟨0, 0, 0, 0⟩ else s.brush_fill_color)
    else s.mask x y
  if s.direct_mask_paint then
    if s.d_rgb2gray = [] then ({ s with mask := stamped }, true)
    else
      match lookupD s.d_rgb2gray s.brush_fill_color.rgb with
      | none => ({ s with mask := stamped }, true)
      | some tc =>
          ({ s with
              mask := stamped
              offscreen_mask := fun x y =>
                if inDisc ev.1 ev.2 s.brush_diameter x y then
                  (if s.eraseMode then 0 else tc)
                else s.offscreen_mask x y
              lastPoint := ev }, false)
  else ({ s with mask := stamped, lastPoint := ev }, false)

/-- QtImageAnnotator.drawMarkerLine (lines 484-504): stroke a round-capped
capsule from `lastPoint` to the event position, identically on both buffers
in direct mode. -/
def drawMarkerLine (ev : Int × Int) (s : AnnotState) : AnnotState × Bool :=
  let stroked : Grid Rgba := fun x y =>
    if inCapsule s.lastPoint ev s.brush_diameter x y then
      (if s.eraseMode then ⟨0, 0, 0, 0⟩ else s.brush_fill_color)
    else s.mask x y
  if s.direct_mask_paint then
    if s.d_rgb2gray = [] then ({ s with mask := stroked }, true)
    else
      match lookupD s.d_rgb2gray s.brush_fill_color.rgb with
      | none => ({ s with mask := stroked }, true)
      | some tc =>
          ({ s with
              mask := stroked
              offscreen_mask := fun x y =>
                if inCapsule s.lastPoint ev s.brush_diameter x y then
                  (if s.eraseMode then 0 else tc)
                else s.offscreen_mask x y
              lastPoint := ev }, false)
  else ({ s with mask := stroked, lastPoint := ev }, false)

/-! ## Region operations (`fillArea`, `repaintArea`)

`fillArea` (lines 509-581) builds, from the alpha channel of the mask
pixmap, the 0/255 images `msk` (0 = painted), `msk1` and the flood-fill
barrier `the_mask`, runs `cv2.floodFill(msk1, the_mask, seed, 0, 0, 1)` from
`lastCursorLocation`, and commits `paintin` to both buffers.  The grids are
modelled as functions of the pre-call state. -/

/-- Seed pixel: the cursor position truncated to integers (line 548). -/
def seedOf (s : AnnotState) : Nat × Nat :=
  (s.lastCursorLocation.1.toNat, s.lastCursorLocation.2.toNat)

/-- `cv2.floodFill` asserts that the seed lies inside the image; outside it
raises (the callers catch the exception). -/
def seedInBounds (s : AnnotState) : Prop :=
  0 ≤ s.lastCursorLocation.1 ∧ s.lastCursorLocation.1 < (s.wdt : Int) ∧
  0 ≤ s.lastCursorLocation.2 ∧ s.lastCursorLocation.2 < (s.hgt : Int)

instance (s : AnnotState) : Decidable (seedInBounds s) := by
  unfold seedInBounds
  infer_instance

/-- `msk` (lines 519-523): thresholded, inverted alpha view; 0 at painted
(occupied) pixels, 255 at transparent ones. -/
def mskOf (s : AnnotState) : Nat × Nat → Nat := fun p =>
  if 0 < (s.mask p.1 p.2).a then 0 else 255

/-- `msk1` (lines 524-527): inverted again when removing a contour. -/
def msk1Of (s : AnnotState) (rcc : Bool) : Nat × Nat → Nat := fun p =>
  if rcc then 255 - mskOf s p else mskOf s p

/-- `the_mask` (lines 529-543): the flood-fill barrier.  Removing with
`remove_only_current_color` blocks every pixel whose RGB does not match the
brush color within tolerance; plain removal blocks nothing; filling blocks
occupied pixels (`cv2.bitwise_not(msk)`). -/
def theMaskOf (s : AnnotState) (rcc rocc : Bool) : Nat × Nat → Nat := fun p =>
  if rcc then
    (if rocc then (if colorNear (s.mask p.1 p.2) s.brush_fill_color then 0 else 255) else 0)
  else 255 - mskOf s p

/-- Store the previous state so we can go back to it: append a copy of the
mask pixmap (and, in direct mode, of the off-screen mask) to the bounded
undo deques (lines 512-515, 586-588 and 832-834). -/
def snapshotPush (s : AnnotState) : AnnotState :=
  { s with
    overlay_stack := pushB s.mask s.overlay_stack
    offscreen_mask_stack :=
      if s.direct_mask_paint then pushB s.offscreen_mask s.offscreen_mask_stack
      else s.offscreen_mask_stack }

/-- The pixel condition of `cv2.floodFill(msk1, the_mask, seed, 0, 0, 1)`:
barrier-free and same `msk1` value as the seed. -/
def fillCond (s : AnnotState) (rcc rocc : Bool) : Nat × Nat → Bool := fun q =>
  theMaskOf s rcc rocc q == 0 && msk1Of s rcc q == msk1Of s rcc (seedOf s)

/-- The set of pixels the flood fill marks (and zeroes in `msk1`). -/
def fillRegion (s : AnnotState) (rcc rocc : Bool) : Finset (Nat × Nat) :=
  floodRegion s.wdt s.hgt (fillCond s rcc rocc) (seedOf s)

/-- `paintin` (lines 551-555): the filled component itself when removing,
`msk - msk1` when filling. -/
def paintinOf (s : AnnotState) (rcc rocc : Bool) : Nat × Nat → Nat := fun p =>
  let m1 := if p ∈ fillRegion s rcc rocc then 0 else msk1Of s rcc p
  if rcc then m1 else mskOf s p - m1

/-- QtImageAnnotator.fillArea (lines 509-581).  Pushes both undo snapshots
first; with an out-of-bounds seed `cv2.floodFill` raises after the pushes
and before any buffer write; in direct non-remove mode a missing brush color
in `d_rgb2gray` (KeyError, line 572) likewise raises before the buffers are
committed.  The raised exception is reported in the second component and is
caught by the key handlers. -/
def fillArea (rcc rocc : Bool) (s : AnnotState) : AnnotState × Bool :=
  let s1 := snapshotPush s
  if seedInBounds s then
    let newMask : Grid Rgba := fun x y =>
      if rcc then (if paintinOf s rcc rocc (x, y) = 0 then ⟨0, 0, 0, 0⟩ else s.mask x y)
      else (if paintinOf s rcc rocc (x, y) = 255 then s.brush_fill_color else s.mask x y)
    if s.direct_mask_paint then
      if rcc then
        ({ s1 with
            mask := newMask
            offscreen_mask := fun x y =>
              if paintinOf s rcc rocc (x, y) = 0 then 0 else s.offscreen_mask x y }, false)
      else
        match lookupD s.d_rgb2gray s.brush_fill_color.rgb with
        | none => (s1, true)
        | some tc =>
            ({ s1 with
                mask := newMask
                offscreen_mask := fun x y =>
                  if paintinOf s rcc rocc (x, y) = 255 then tc
                  else s.offscreen_mask x y }, false)
    else ({ s1 with mask := newMask }, false)
  else (s1, true)

/-- The pixel condition of the flood fill in `repaintArea` (lines 593-596):
`the_mask` is all zeros, so only the `msk1` value test remains. -/
def repaintCond (s : AnnotState) : Nat × Nat → Bool := fun q =>
  (255 - mskOf s q) == (255 - mskOf s (seedOf s))

/-- The component marked by the flood fill in `repaintArea`. -/
def repaintRegion (s : AnnotState) : Finset (Nat × Nat) :=
  floodRegion s.wdt s.hgt (repaintCond s) (seedOf s)

/-- `paintin = np.bitwise_xor(msk, msk1)` (line 597) after the fill zeroed
the marked component of `msk1 = 255 - msk`. -/
def repaintPaintin (s : AnnotState) : Nat × Nat → Nat := fun p =>
  Nat.xor (mskOf s p) (if p ∈ repaintRegion s then 0 else 255 - mskOf s p)

/-- QtImageAnnotator.repaintArea (lines 584-611): recolor the 4-connected
component under the cursor (disregarding color information) to the current
brush color.  Pushes both undo snapshots first; an out-of-bounds seed or a
KeyError on `d_rgb2gray` (line 605) raises before either buffer is
committed. -/
def repaintArea (s : AnnotState) : AnnotState × Bool :=
  let s1 := snapshotPush s
  if seedInBounds s then
    let newMask : Grid Rgba := fun x y =>
      if repaintPaintin s (x, y) = 0 then s.brush_fill_color else s.mask x y
    if s.direct_mask_paint then
      match lookupD s.d_rgb2gray s.brush_fill_color.rgb with
      | none => (s1, true)
      | some tc =>
          ({ s1 with
              mask := newMask
              offscreen_mask := fun x y =>
                if repaintPaintin s (x, y) = 0 then tc
                else s.offscreen_mask x y }, false)
    else ({ s1 with mask := newMask }, false)
  else (s1, true)

/-! ## Event handlers -/

/-- keyPressEvent, Key_F (lines 734-742): fill the region under the cursor;
any exception is printed and absorbed. -/
def keyF (s : AnnotState) : AnnotState :=
  if s.hasImage then (fillArea false true s).1 else s

/-- keyPressEvent, Ctrl+X (lines 744-753): erase the contour under the
cursor restricted to the current color; exceptions absorbed. -/
def keyX (ctrl : Bool) (s : AnnotState) : AnnotState :=
  if s.hasImage && ctrl then (fillArea true true s).1 else s

/-- keyPressEvent, Ctrl+Q (lines 755-764): erase the connected contour
regardless of color; exceptions absorbed. -/
def keyQ (ctrl : Bool) (s : AnnotState) : AnnotState :=
  if s.hasImage && ctrl then (fillArea true false s).1 else s

/-- keyPressEvent, Ctrl+Z (lines 792-801): pop and restore the most recent
mask frame if any; in direct mode also pop and restore the off-screen mask
frame if any. -/
def undoZ (s : AnnotState) : AnnotState :=
  let s1 :=
    match s.overlay_stack with
    | [] => s
    | m :: rest => { s with mask := m, overlay_stack := rest }
  if s1.direct_mask_paint then
    match s1.offscreen_mask_stack with
    | [] => s1
    | om :: rest => { s1 with offscreen_mask := om, offscreen_mask_stack := rest }
  else s1

/-- The Key_Z branch of keyPressEvent, including its guards. -/
def keyZ (ctrl : Bool) (s : AnnotState) : AnnotState :=
  if s.hasImage && ctrl then undoZ s else s

/-- Lines 837-846: if Alt is held, repaint the region under the cursor; any
exception is printed and absorbed. -/
def pressAltPhase (alt : Bool) (t : AnnotState) : AnnotState :=
  if alt then (repaintArea t).1 else t

/-- Lines 848-850: if Shift is held, draw a line; an exception raised here
propagates and aborts the rest of the handler. -/
def pressShiftPhase (ev : Int × Int) (shift : Bool) (t : AnnotState) :
    AnnotState × Bool :=
  if shift then drawMarkerLine ev t else (t, false)

/-- Lines 852-857: set paint/erase mode from Ctrl unless the global erase
override is active. -/
def setModeFromCtrl (ctrl : Bool) (t : AnnotState) : AnnotState :=
  if t.global_erase_override then t else { t with eraseMode := ctrl }

/-- Lines 859-861: stamp a marker unless a repaint was active. -/
def pressMarkerPhase (ev : Int × Int) (alt ctrl : Bool) (t : AnnotState) :
    AnnotState :=
  if alt then setModeFromCtrl ctrl t else (fillMarker ev (setModeFromCtrl ctrl t)).1

/-- mousePressEvent, left button (lines 824-875): push both undo snapshots,
then run the Alt (repaint), Shift (line) and marker phases. -/
def mousePressLeft (ev : Int × Int) (alt shift ctrl : Bool) (s : AnnotState) :
    AnnotState :=
  if s.hasImage then
    let line := pressShiftPhase ev shift (pressAltPhase alt (snapshotPush s))
    if line.2 then line.1 else pressMarkerPhase ev alt ctrl line.1
  else s

/-! ## Initialization (`clearAndSetImageAndMask`) and the color table -/

/-- The `mask` argument of `clearAndSetImageAndMask`: a grayscale class
mask or an RGBA color mask (the Python code duck-types on the array
shape). -/
inductive MaskArg where
  | gray (m : Grid Nat)
  | rgba (m : Grid Rgba)

/-- Lookup in `d_gray2rgb` where the LAST matching entry wins, matching the
sequential `new_mask[mask == gr] = col` assignments of lines 259-261. -/
def lookupLastG : List (Nat × Rgb) → Nat → Option Rgb := plookupLast

/-- Lines 254-262: `new_mask = zeros((h, w, 4)); for gr, rgb in
d_gray2rgb.items(): new_mask[mask == gr] = QColor("#63" + rgb).getRgb()`.
Unlisted class values stay transparent black; listed ones get their display
color with alpha `0x63`. -/
def gray2rgbConvert (d : List (Nat × Rgb)) (m : Grid Nat) : Grid Rgba := fun x y =>
  match lookupLastG d (m x y) with
  | some c => ⟨c.1, c.2.1, c.2.2, 0x63⟩
  | none => ⟨0, 0, 0, 0⟩

/-- QtImageAnnotator.clearAndSetImageAndMask (lines 183-285): reset the
scene, set the direct-paint flag, clear the undo stacks, take the shape from
the image, build the off-screen mask in direct mode, and build the mask
pixmap (converting a grayscale mask through `d_gray2rgb` when
`process_gray2rgb` is set, raising RuntimeError if the conversion table is
missing).  The raised exception is reported in the second component; the
state mutations made before the raise are kept, as in the Python object. -/
def clearAndSetImageAndMask (ih iw : Nat) (mask : MaskArg)
    (process_gray2rgb direct : Bool) (s : AnnotState) : AnnotState × Bool :=
  let s1 := { s with direct_mask_paint := direct, overlay_stack := [],
                     hgt := ih, wdt := iw, hasImage := true }
  let s2 :=
    if direct then
      match mask with
      | .gray m => { s1 with offscreen_mask := m, offscreen_mask_stack := [] }
      | .rgba m =>
          -- `QImage(mask.data, ..., Format_Grayscale8)` on an RGBA array
          -- reinterprets the leading bytes of each RGBA row as gray values
          { s1 with
              offscreen_mask := fun x y =>
                let p := m (x / 4) y
                (if x % 4 = 0 then p.r else if x % 4 = 1 then p.g
                 else if x % 4 = 2 then p.b else p.a)
              offscreen_mask_stack := [] }
    else s1
  if process_gray2rgb then
    match mask with
    | .gray m =>
        if s.d_gray2rgb = [] then (s2, true)
        else ({ s2 with mask := gray2rgbConvert s.d_gray2rgb m }, false)
    | .rgba _ => (s2, true)
  else
    match mask with
    | .gray m => ({ s2 with mask := fun x y => ⟨m x y, m x y, m x y, 255⟩ }, false)
    | .rgba m => ({ s2 with mask := m }, false)

/-- Python `dict` insertion for `rgb2g`. -/
def dinsertR (d : List (Rgb × Nat)) (k : Rgb) (v : Nat) : List (Rgb × Nat) :=
  pinsert d k v

/-- Python `dict` lookup for `g2rgb` (first match; keys are unique by
construction). -/
def lookupG : List (Nat × Rgb) → Nat → Option Rgb := plookup

/-- Python `dict` insertion for `g2rgb`. -/
def dinsertG (d : List (Nat × Rgb)) (k : Nat) (v : Rgb) : List (Nat × Rgb) :=
  pinsert d k v

/-- One row of `defs/color_defs.csv` as consumed by `add_colors_to_list`:
`COLOR_HEXRGB_DATMANT` (lowercased hex, as an RGB triple) and
`int(COLOR_GSCALE_MAPPING)`. -/
structure CspecEntry where
  hexrgb : Rgb
  gval : Nat

/-- DATMantGUI.add_colors_to_list (datmant.py lines 789-831): build the two
conversion dicts `rgb2g` and `g2rgb` by iterating over the specification
rows in order (`g2rgb[g_val] = rgb_val; rgb2g[rgb_val] = g_val`).  The
icon/list population and the `tk2rgb` dict are display-only and not
modelled.  No validation of any kind is performed. -/
def add_colors_to_list (cspec : List CspecEntry) :
    List (Rgb × Nat) × List (Nat × Rgb) :=
  cspec.foldl
    (fun acc col =>
      (dinsertR acc.1 col.hexrgb col.gval, dinsertG acc.2 col.gval col.hexrgb))
    ([], [])

/-! ## The mutating operations named by the specification -/

/-- The five mutating operations of the specification, each as its concrete
entry point in the widget: stamp = plain left click, stroke = Shift+click
(straight-line mode), floodAdd = F, floodRemove = Ctrl+X / Ctrl+Q,
recolor = Alt+click. -/
inductive MutOp where
  | stamp (ev : Int × Int) (ctrl : Bool)
  | stroke (ev : Int × Int) (ctrl : Bool)
  | floodAdd
  | floodRemove (restrictToCurrentColor : Bool)
  | recolor (ev : Int × Int) (ctrl : Bool)

def applyMutOp : MutOp → AnnotState → AnnotState
  | .stamp ev ctrl, s => mousePressLeft ev false false ctrl s
  | .stroke ev ctrl, s => mousePressLeft ev false true ctrl s
  | .floodAdd, s => keyF s
  | .floodRemove true, s => keyX true s
  | .floodRemove false, s => keyQ true s
  | .recolor ev ctrl, s => mousePressLeft ev true false ctrl s

/-- A mutating operation or an undo. -/
inductive EditOp where
  | mutate (o : MutOp)
  | undo

def applyEditOp : EditOp → AnnotState → AnnotState
  | .mutate o, s => applyMutOp o s
  | .undo, s => keyZ true s

/-- Byte-level equality of two buffers over the canvas. -/
def bufEq {α : Type} (h w : Nat) (f g : Grid α) : Prop :=
  ∀ y, y < h → ∀ x, x < w → f x y = g x y

instance {α : Type} [DecidableEq α] (h w : Nat) (f g : Grid α) :
    Decidable (bufEq h w f g) := by
  unfold bufEq
  infer_instance

/-! ## Administrative lemmas -/

theorem pushB_cons {α : Type} (x : α) (xs : List α) :
    pushB x xs = x :: xs.take (MAX_CTRLZ_STATES - 1) := rfl

theorem pushB_length {α : Type} (x : α) (xs : List α) :
    (pushB x xs).length = min MAX_CTRLZ_STATES (xs.length + 1) := by
  simp [pushB]

/-- The configuration fields that none of the painting operations touch. -/
def admin (s : AnnotState) :
    Nat × Nat × Bool × Bool × Rgba × Nat × Bool × List (Rgb × Nat) ×
      List (Nat × Rgb) × (Int × Int) :=
  (s.hgt, s.wdt, s.hasImage, s.direct_mask_paint, s.brush_fill_color,
   s.brush_diameter, s.global_erase_override, s.d_rgb2gray, s.d_gray2rgb,
   s.lastCursorLocation)

theorem admin_fields {s t : AnnotState} (h : admin t = admin s) :
    t.hgt = s.hgt ∧ t.wdt = s.wdt ∧ t.hasImage = s.hasImage ∧
    t.direct_mask_paint = s.direct_mask_paint ∧
    t.brush_fill_color = s.brush_fill_color ∧
    t.brush_diameter = s.brush_diameter ∧
    t.global_erase_override = s.global_erase_override ∧
    t.d_rgb2gray = s.d_rgb2gray ∧ t.d_gray2rgb = s.d_gray2rgb ∧
    t.lastCursorLocation = s.lastCursorLocation := by
  unfold admin at h
  repeat' constructor
  all_goals
    first
    | exact congrArg (fun z => z.1) h
    | exact congrArg (fun z => z.2.1) h
    | exact congrArg (fun z => z.2.2.1) h
    | exact congrArg (fun z => z.2.2.2.1) h
    | exact congrArg (fun z => z.2.2.2.2.1) h
    | exact congrArg (fun z => z.2.2.2.2.2.1) h
    | exact congrArg (fun z => z.2.2.2.2.2.2.1) h
    | exact congrArg (fun z => z.2.2.2.2.2.2.2.1) h
    | exact congrArg (fun z => z.2.2.2.2.2.2.2.2.1) h
    | exact congrArg (fun z => z.2.2.2.2.2.2.2.2.2) h

theorem snapshotPush_admin (s : AnnotState) :
    admin (snapshotPush s) = admin s ∧ (snapshotPush s).mask = s.mask ∧
    (snapshotPush s).offscreen_mask = s.offscreen_mask ∧
    (snapshotPush s).eraseMode = s.eraseMode ∧
    (snapshotPush s).overlay_stack = pushB s.mask s.overlay_stack ∧
    (snapshotPush s).offscreen_mask_stack =
      (if s.direct_mask_paint then pushB s.offscreen_mask s.offscreen_mask_stack
       else s.offscreen_mask_stack) :=
  ⟨rfl, rfl, rfl, rfl, rfl, rfl⟩

theorem fillMarker_admin (ev : Int × Int) (s : AnnotState) :
    admin ((fillMarker ev s).1) = admin s ∧
    ((fillMarker ev s).1).overlay_stack = s.overlay_stack ∧
    ((fillMarker ev s).1).offscreen_mask_stack = s.offscreen_mask_stack := by
  unfold fillMarker
  dsimp only
  split
  · split
    · exact ⟨rfl, rfl, rfl⟩
    · split
      · exact ⟨rfl, rfl, rfl⟩
      · exact ⟨rfl, rfl, rfl⟩
  · exact ⟨rfl, rfl, rfl⟩

theorem drawMarkerLine_admin (ev : Int × Int) (s : AnnotState) :
    admin ((drawMarkerLine ev s).1) = admin s ∧
    ((drawMarkerLine ev s).1).overlay_stack = s.overlay_stack ∧
    ((drawMarkerLine ev s).1).offscreen_mask_stack = s.offscreen_mask_stack := by
  unfold drawMarkerLine
  dsimp only
  split
  · split
    · exact ⟨rfl, rfl, rfl⟩
    · split
      · exact ⟨rfl, rfl, rfl⟩
      · exact ⟨rfl, rfl, rfl⟩
  · exact ⟨rfl, rfl, rfl⟩

theorem fillArea_admin (rcc rocc : Bool) (s : AnnotState) :
    admin ((fillArea rcc rocc s).1) = admin s ∧
    ((fillArea rcc rocc s).1).overlay_stack = pushB s.mask s.overlay_stack ∧
    ((fillArea rcc rocc s).1).offscreen_mask_stack =
      (if s.direct_mask_paint then pushB s.offscreen_mask s.offscreen_mask_stack
       else s.offscreen_mask_stack) := by
  unfold fillArea
  dsimp only
  split
  · split
    · split
      · exact ⟨rfl, rfl, by simp [snapshotPush, *]⟩
      · split
        · exact ⟨rfl, rfl, by simp [snapshotPush, *]⟩
        · exact ⟨rfl, rfl, by simp [snapshotPush, *]⟩
    · exact ⟨rfl, rfl, by simp [snapshotPush, *]⟩
  · exact ⟨rfl, rfl, by simp [snapshotPush, *]⟩

theorem repaintArea_admin (s : AnnotState) :
    admin ((repaintArea s).1) = admin s ∧
    ((repaintArea s).1).overlay_stack = pushB s.mask s.overlay_stack ∧
    ((repaintArea s).1).offscreen_mask_stack =
      (if s.direct_mask_paint then pushB s.offscreen_mask s.offscreen_mask_stack
       else s.offscreen_mask_stack) := by
  unfold repaintArea
  dsimp only
  split
  · split
    · split
      · exact ⟨rfl, rfl, by simp [snapshotPush, *]⟩
      · exact ⟨rfl, rfl, by simp [snapshotPush, *]⟩
    · exact ⟨rfl, rfl, by simp [snapshotPush, *]⟩
  · exact ⟨rfl, rfl, by simp [snapshotPush, *]⟩

theorem pressAltPhase_admin (alt : Bool) (t : AnnotState) :
    admin (pressAltPhase alt t) = admin t ∧
    (pressAltPhase alt t).overlay_stack =
      (if alt then pushB t.mask t.overlay_stack else t.overlay_stack) ∧
    (pressAltPhase alt t).offscreen_mask_stack =
      (if alt then
         (if t.direct_mask_paint then pushB t.offscreen_mask t.offscreen_mask_stack
          else t.offscreen_mask_stack)
       else t.offscreen_mask_stack) := by
  cases alt with
  | false => exact ⟨rfl, rfl, rfl⟩
  | true =>
    simpa [pressAltPhase] using repaintArea_admin t

theorem pressShiftPhase_admin (ev : Int × Int) (shift : Bool) (t : AnnotState) :
    admin ((pressShiftPhase ev shift t).1) = admin t ∧
    ((pressShiftPhase ev shift t).1).overlay_stack = t.overlay_stack ∧
    ((pressShiftPhase ev shift t).1).offscreen_mask_stack = t.offscreen_mask_stack := by
  cases shift with
  | false => exact ⟨rfl, rfl, rfl⟩
  | true => simpa [pressShiftPhase] using drawMarkerLine_admin ev t

theorem setModeFromCtrl_admin (ctrl : Bool) (t : AnnotState) :
    admin (setModeFromCtrl ctrl t) = admin t ∧
    (setModeFromCtrl ctrl t).overlay_stack = t.overlay_stack ∧
    (setModeFromCtrl ctrl t).offscreen_mask_stack = t.offscreen_mask_stack ∧
    (setModeFromCtrl ctrl t).mask = t.mask ∧
    (setModeFromCtrl ctrl t).offscreen_mask = t.offscreen_mask := by
  unfold setModeFromCtrl
  split
  · exact ⟨rfl, rfl, rfl, rfl, rfl⟩
  · exact ⟨rfl, rfl, rfl, rfl, rfl⟩

theorem pressMarkerPhase_admin (ev : Int × Int) (alt ctrl : Bool) (t : AnnotState) :
    admin (pressMarkerPhase ev alt ctrl t) = admin t ∧
    (pressMarkerPhase ev alt ctrl t).overlay_stack = t.overlay_stack ∧
    (pressMarkerPhase ev alt ctrl t).offscreen_mask_stack = t.offscreen_mask_stack := by
  cases alt with
  | true =>
    have h := setModeFromCtrl_admin ctrl t
    exact ⟨h.1, h.2.1, h.2.2.1⟩
  | false =>
    have h1 := setModeFromCtrl_admin ctrl t
    have h2 := fillMarker_admin ev (setModeFromCtrl ctrl t)
    refine ⟨h2.1.trans h1.1, ?_, ?_⟩
    · exact h2.2.1.trans h1.2.1
    · exact h2.2.2.trans h1.2.2.1

theorem mousePressLeft_admin (ev : Int × Int) (alt shift ctrl : Bool)
    (s : AnnotState) (h : s.hasImage = true) :
    admin (mousePressLeft ev alt shift ctrl s) = admin s ∧
    (mousePressLeft ev alt shift ctrl s).overlay_stack =
      (if alt then pushB s.mask (pushB s.mask s.overlay_stack)
       else pushB s.mask s.overlay_stack) ∧
    (mousePressLeft ev alt shift ctrl s).offscreen_mask_stack =
      (if s.direct_mask_paint then
         (if alt then pushB s.offscreen_mask (pushB s.offscreen_mask s.offscreen_mask_stack)
          else pushB s.offscreen_mask s.offscreen_mask_stack)
       else s.offscreen_mask_stack) := by
  have hsnap := snapshotPush_admin s
  have halt := pressAltPhase_admin alt (snapshotPush s)
  have hshift := pressShiftPhase_admin ev shift (pressAltPhase alt (snapshotPush s))
  have hmark := pressMarkerPhase_admin ev alt ctrl
    ((pressShiftPhase ev shift (pressAltPhase alt (snapshotPush s))).1)
  have hstep :
      admin ((pressShiftPhase ev shift (pressAltPhase alt (snapshotPush s))).1) = admin s := by
    rw [hshift.1, halt.1, hsnap.1]
  have hov :
      ((pressShiftPhase ev shift (pressAltPhase alt (snapshotPush s))).1).overlay_stack =
        (if alt then pushB s.mask (pushB s.mask s.overlay_stack)
         else pushB s.mask s.overlay_stack) := by
    rw [hshift.2.1, halt.2.1]
    show (if alt then pushB (snapshotPush s).mask (snapshotPush s).overlay_stack
      else (snapshotPush s).overlay_stack) = _
    cases alt <;> rfl
  have hoff :
      ((pressShiftPhase ev shift (pressAltPhase alt (snapshotPush s))).1).offscreen_mask_stack =
        (if s.direct_mask_paint then
           (if alt then pushB s.offscreen_mask (pushB s.offscreen_mask s.offscreen_mask_stack)
            else pushB s.offscreen_mask s.offscreen_mask_stack)
         else s.offscreen_mask_stack) := by
    rw [hshift.2.2, halt.2.2]
    cases alt with
    | false =>
      show (snapshotPush s).offscreen_mask_stack = _
      by_cases hd : s.direct_mask_paint = true
      · simp [snapshotPush, hd]
      · simp [snapshotPush, hd]
    | true =>
      show (if (snapshotPush s).direct_mask_paint then
          pushB (snapshotPush s).offscreen_mask (snapshotPush s).offscreen_mask_stack
        else (snapshotPush s).offscreen_mask_stack) = _
      by_cases hd : s.direct_mask_paint = true
      · simp [snapshotPush, hd]
      · simp [snapshotPush, hd]
  unfold mousePressLeft
  rw [if_pos h]
  dsimp only
  split
  · exact ⟨hstep, hov, hoff⟩
  · exact ⟨hmark.1.trans hstep, hmark.2.1.trans hov, hmark.2.2.trans hoff⟩

theorem keyF_admin (s : AnnotState) (h : s.hasImage = true) :
    admin (keyF s) = admin s ∧
    (keyF s).overlay_stack = pushB s.mask s.overlay_stack ∧
    (keyF s).offscreen_mask_stack =
      (if s.direct_mask_paint then pushB s.offscreen_mask s.offscreen_mask_stack
       else s.offscreen_mask_stack) := by
  unfold keyF
  rw [if_pos h]
  exact fillArea_admin false true s

theorem keyX_admin (s : AnnotState) (h : s.hasImage = true) :
    admin (keyX true s) = admin s ∧
    (keyX true s).overlay_stack = pushB s.mask s.overlay_stack ∧
    (keyX true s).offscreen_mask_stack =
      (if s.direct_mask_paint then pushB s.offscreen_mask s.offscreen_mask_stack
       else s.offscreen_mask_stack) := by
  unfold keyX
  rw [h]
  exact fillArea_admin true true s

theorem keyQ_admin (s : AnnotState) (h : s.hasImage = true) :
    admin (keyQ true s) = admin s ∧
    (keyQ true s).overlay_stack = pushB s.mask s.overlay_stack ∧
    (keyQ true s).offscreen_mask_stack =
      (if s.direct_mask_paint then pushB s.offscreen_mask s.offscreen_mask_stack
       else s.offscreen_mask_stack) := by
  unfold keyQ
  rw [h]
  exact fillArea_admin true false s

/-- Behaviour of the Ctrl+Z handler on a state whose undo stack is
nonempty. -/
theorem undoZ_of_cons {s : AnnotState} {m : Grid Rgba} {L : List (Grid Rgba)}
    (hov : s.overlay_stack = m :: L) :
    (undoZ s).mask = m ∧ (undoZ s).overlay_stack = L ∧
    (s.direct_mask_paint = false →
      (undoZ s).offscreen_mask = s.offscreen_mask ∧
      (undoZ s).offscreen_mask_stack = s.offscreen_mask_stack) ∧
    (∀ om L2, s.direct_mask_paint = true → s.offscreen_mask_stack = om :: L2 →
      (undoZ s).offscreen_mask = om ∧ (undoZ s).offscreen_mask_stack = L2) := by
  unfold undoZ
  rw [hov]
  dsimp only
  by_cases hd : s.direct_mask_paint = true
  · rw [if_pos hd]
    refine ⟨?_, ?_, ?_, ?_⟩
    · split
      · rfl
      · rfl
    · split
      · rfl
      · rfl
    · intro hfalse
      rw [hd] at hfalse
      exact absurd hfalse (by simp)
    · intro om L2 _ hoff
      rw [hoff]
      exact ⟨rfl, rfl⟩
  · rw [if_neg hd]
    refine ⟨rfl, rfl, fun _ => ⟨rfl, rfl⟩, ?_⟩
    intro om L2 hdt _
    exact absurd hdt hd

theorem if_pushB_cons {α : Type} (b : Bool) (x : α) (xs : List α) :
    ∃ L, (if b then pushB x (pushB x xs) else pushB x xs) = x :: L := by
  cases b
  · exact ⟨_, pushB_cons x xs⟩
  · exact ⟨_, pushB_cons x (pushB x xs)⟩

/-- Every mutating operation leaves a copy of the pre-operation mask (and,
in direct mode, of the pre-operation off-screen mask) on top of the undo
stacks, and preserves the configuration fields. -/
theorem applyMutOp_stack_top (op : MutOp) (s : AnnotState)
    (h : s.hasImage = true) :
    admin (applyMutOp op s) = admin s ∧
    (∃ L, (applyMutOp op s).overlay_stack = s.mask :: L) ∧
    (s.direct_mask_paint = true →
      ∃ L2, (applyMutOp op s).offscreen_mask_stack = s.offscreen_mask :: L2) := by
  have key :
      ∀ t : AnnotState, admin t = admin s →
        ∀ b : Bool,
        t.overlay_stack =
          (if b then pushB s.mask (pushB s.mask s.overlay_stack)
           else pushB s.mask s.overlay_stack) →
        t.offscreen_mask_stack =
          (if s.direct_mask_paint then
             (if b then pushB s.offscreen_mask (pushB s.offscreen_mask s.offscreen_mask_stack)
              else pushB s.offscreen_mask s.offscreen_mask_stack)
           else s.offscreen_mask_stack) →
        admin t = admin s ∧ (∃ L, t.overlay_stack = s.mask :: L) ∧
          (s.direct_mask_paint = true →
            ∃ L2, t.offscreen_mask_stack = s.offscreen_mask :: L2) := by
    intro t ha b hov hoff
    refine ⟨ha, ?_, ?_⟩
    · rw [hov]
      exact if_pushB_cons b s.mask s.overlay_stack
    · intro hd
      rw [hoff, if_pos hd]
      exact if_pushB_cons b s.offscreen_mask s.offscreen_mask_stack
  have single :
      ∀ t : AnnotState, admin t = admin s →
        t.overlay_stack = pushB s.mask s.overlay_stack →
        t.offscreen_mask_stack =
          (if s.direct_mask_paint then pushB s.offscreen_mask s.offscreen_mask_stack
           else s.offscreen_mask_stack) →
        admin t = admin s ∧ (∃ L, t.overlay_stack = s.mask :: L) ∧
          (s.direct_mask_paint = true →
            ∃ L2, t.offscreen_mask_stack = s.offscreen_mask :: L2) := by
    intro t ha hov hoff
    exact key t ha false hov hoff
  cases op with
  | stamp ev ctrl =>
    obtain ⟨ha, hov, hoff⟩ := mousePressLeft_admin ev false false ctrl s h
    exact key _ ha false hov hoff
  | stroke ev ctrl =>
    obtain ⟨ha, hov, hoff⟩ := mousePressLeft_admin ev false true ctrl s h
    exact key _ ha false hov hoff
  | floodAdd =>
    obtain ⟨ha, hov, hoff⟩ := keyF_admin s h
    exact single _ ha hov hoff
  | floodRemove restrict =>
    cases restrict with
    | true =>
      obtain ⟨ha, hov, hoff⟩ := keyX_admin s h
      exact single _ ha hov hoff
    | false =>
      obtain ⟨ha, hov, hoff⟩ := keyQ_admin s h
      exact single _ ha hov hoff
  | recolor ev ctrl =>
    obtain ⟨ha, hov, hoff⟩ := mousePressLeft_admin ev true false ctrl s h
    exact key _ ha true hov hoff

/-- C1: for every canvas in the Ready state (an image is loaded) and every
mutating operation — brush stamp, stroke, floodAdd, floodRemove or recolor —
pressing Ctrl+Z immediately afterwards restores the MaskLayer
(`mask_pixmap`), and in direct mode also the ClassBuffer
(`_offscreen_mask`), to exactly the byte content they had just before the
operation. -/
theorem C1_undo_restores_buffers (op : MutOp) (s : AnnotState)
    (hready : s.hasImage = true) :
    (keyZ true (applyMutOp op s)).mask = s.mask ∧
    (s.direct_mask_paint = true →
      (keyZ true (applyMutOp op s)).offscreen_mask = s.offscreen_mask) := by
  obtain ⟨ha, ⟨L, hov⟩, hoffd⟩ := applyMutOp_stack_top op s hready
  have hf := admin_fields ha
  have himg : (applyMutOp op s).hasImage = true := hf.2.2.1.trans hready
  have hz : keyZ true (applyMutOp op s) = undoZ (applyMutOp op s) := by
    unfold keyZ
    rw [himg]
    rfl
  obtain ⟨hm, _, _, hdir⟩ := undoZ_of_cons hov
  rw [hz]
  refine ⟨hm, ?_⟩
  intro hd
  obtain ⟨L2, hoff⟩ := hoffd hd
  exact (hdir s.offscreen_mask L2 (hf.2.2.2.1.trans hd) hoff).1

theorem pushB_pushB {α : Type} (x : α) (xs : List α) :
    pushB x (pushB x xs) = x :: x :: xs.take (MAX_CTRLZ_STATES - 2) := by
  rw [pushB_cons, pushB_cons]
  simp [List.take_take, MAX_CTRLZ_STATES]

/-- C10: a recolor triggered through the pointer interface (Alt + left
click) pushes two undo snapshots before mutating — one from
`mousePressEvent` and one from `repaintArea` itself — and both are the
pre-recolor MaskLayer (and ClassBuffer in direct mode), so a single recolor
consumes two slots of the bounded undo capacity. -/
theorem C10_recolor_double_snapshot (ev : Int × Int) (ctrl : Bool)
    (s : AnnotState) (hready : s.hasImage = true) :
    (mousePressLeft ev true false ctrl s).overlay_stack =
      s.mask :: s.mask :: s.overlay_stack.take (MAX_CTRLZ_STATES - 2) ∧
    (mousePressLeft ev true false ctrl s).overlay_stack.length =
      min MAX_CTRLZ_STATES (s.overlay_stack.length + 2) ∧
    (s.direct_mask_paint = true →
      (mousePressLeft ev true false ctrl s).offscreen_mask_stack =
        s.offscreen_mask :: s.offscreen_mask ::
          s.offscreen_mask_stack.take (MAX_CTRLZ_STATES - 2)) := by
  obtain ⟨_, hov, hoff⟩ := mousePressLeft_admin ev true false ctrl s hready
  rw [if_pos rfl] at hov hoff
  refine ⟨?_, ?_, ?_⟩
  · rw [hov, pushB_pushB]
  · rw [hov, pushB_length, pushB_length]
    simp [MAX_CTRLZ_STATES]
    omega
  · intro hd
    rw [hoff, if_pos hd, pushB_pushB]

/-- `fillArea` with an out-of-bounds seed: `cv2.floodFill` raises after the
snapshots are pushed and before either buffer is written. -/
theorem fillArea_oob (rcc rocc : Bool) (s : AnnotState)
    (hoob : ¬ seedInBounds s) : fillArea rcc rocc s = (snapshotPush s, true) := by
  unfold fillArea
  dsimp only
  rw [if_neg hoob]

/-- `repaintArea` with an out-of-bounds seed. -/
theorem repaintArea_oob (s : AnnotState) (hoob : ¬ seedInBounds s) :
    repaintArea s = (snapshotPush s, true) := by
  unfold repaintArea
  dsimp only
  rw [if_neg hoob]

/-- C9: a region operation — floodAdd (F key), floodRemove (Ctrl+X and
Ctrl+Q) or recolor (Alt + left click) — invoked with the cursor outside the
canvas bounds is silently absorbed: the handlers catch the exception raised
by `cv2.floodFill`, the MaskLayer and the ClassBuffer are left unchanged,
and no error reaches the caller (the handlers are total). -/
theorem C9_oob_seed_noop (s : AnnotState) (ev : Int × Int) (ctrl : Bool)
    (hready : s.hasImage = true) (hoob : ¬ seedInBounds s) :
    (keyF s).mask = s.mask ∧ (keyF s).offscreen_mask = s.offscreen_mask ∧
    (keyX true s).mask = s.mask ∧ (keyX true s).offscreen_mask = s.offscreen_mask ∧
    (keyQ true s).mask = s.mask ∧ (keyQ true s).offscreen_mask = s.offscreen_mask ∧
    (mousePressLeft ev true false ctrl s).mask = s.mask ∧
    (mousePressLeft ev true false ctrl s).offscreen_mask = s.offscreen_mask := by
  have hF : keyF s = (fillArea false true s).1 := by
    unfold keyF
    rw [if_pos hready]
  have hX : keyX true s = (fillArea true true s).1 := by
    unfold keyX
    rw [hready]
    rfl
  have hQ : keyQ true s = (fillArea true false s).1 := by
    unfold keyQ
    rw [hready]
    rfl
  have hoob2 : ¬ seedInBounds (snapshotPush s) := hoob
  have hpress : mousePressLeft ev true false ctrl s =
      setModeFromCtrl ctrl (snapshotPush (snapshotPush s)) := by
    unfold mousePressLeft
    rw [if_pos hready]
    dsimp only [pressShiftPhase, pressAltPhase, pressMarkerPhase]
    rw [repaintArea_oob _ hoob2]
    simp
  refine ⟨?_, ?_, ?_, ?_, ?_, ?_, ?_, ?_⟩
  · rw [hF, fillArea_oob _ _ _ hoob]
    rfl
  · rw [hF, fillArea_oob _ _ _ hoob]
    rfl
  · rw [hX, fillArea_oob _ _ _ hoob]
    rfl
  · rw [hX, fillArea_oob _ _ _ hoob]
    rfl
  · rw [hQ, fillArea_oob _ _ _ hoob]
    rfl
  · rw [hQ, fillArea_oob _ _ _ hoob]
    rfl
  · rw [hpress]
    exact (setModeFromCtrl_admin ctrl _).2.2.2.1
  · rw [hpress]
    exact (setModeFromCtrl_admin ctrl _).2.2.2.2

theorem undoZ_admin (s : AnnotState) : admin (undoZ s) = admin s := by
  unfold undoZ
  cases hov : s.overlay_stack with
  | nil =>
    dsimp only
    split
    · split
      · rfl
      · rfl
    · rfl
  | cons m rest =>
    dsimp only
    split
    · split
      · rfl
      · rfl
    · rfl

/-- Ctrl+Z on empty history: no state change at all. -/
theorem undoZ_of_nil {s : AnnotState} (hov : s.overlay_stack = [])
    (hoff : s.direct_mask_paint = true → s.offscreen_mask_stack = []) :
    undoZ s = s := by
  unfold undoZ
  rw [hov]
  dsimp only
  by_cases hd : s.direct_mask_paint = true
  · rw [if_pos hd, hoff hd]
  · rw [if_neg hd]

/-- Stack-length accounting for a single mutating operation: it pushes one
or two frames on the bounded stacks (two for recolor), identically on both
stacks in direct mode. -/
theorem applyMutOp_stack_lens (op : MutOp) (s : AnnotState)
    (h : s.hasImage = true) :
    admin (applyMutOp op s) = admin s ∧
    ∃ k, 1 ≤ k ∧
      (applyMutOp op s).overlay_stack.length =
        min MAX_CTRLZ_STATES (s.overlay_stack.length + k) ∧
      (s.direct_mask_paint = true →
        (applyMutOp op s).offscreen_mask_stack.length =
          min MAX_CTRLZ_STATES (s.offscreen_mask_stack.length + k)) ∧
      (s.direct_mask_paint = false →
        (applyMutOp op s).offscreen_mask_stack = s.offscreen_mask_stack) := by
  have key :
      ∀ t : AnnotState, admin t = admin s →
        ∀ b : Bool,
        t.overlay_stack =
          (if b then pushB s.mask (pushB s.mask s.overlay_stack)
           else pushB s.mask s.overlay_stack) →
        t.offscreen_mask_stack =
          (if s.direct_mask_paint then
             (if b then pushB s.offscreen_mask (pushB s.offscreen_mask s.offscreen_mask_stack)
              else pushB s.offscreen_mask s.offscreen_mask_stack)
           else s.offscreen_mask_stack) →
        admin t = admin s ∧
        ∃ k, 1 ≤ k ∧
          t.overlay_stack.length = min MAX_CTRLZ_STATES (s.overlay_stack.length + k) ∧
          (s.direct_mask_paint = true →
            t.offscreen_mask_stack.length =
              min MAX_CTRLZ_STATES (s.offscreen_mask_stack.length + k)) ∧
          (s.direct_mask_paint = false →
            t.offscreen_mask_stack = s.offscreen_mask_stack) := by
    intro t ha b hov hoff
    refine ⟨ha, ?_⟩
    cases b with
    | false =>
      refine ⟨1, le_refl 1, ?_, ?_, ?_⟩
      · rw [hov]
        simp only [if_neg (by simp : ¬ (false = true))]
        rw [pushB_length]
      · intro hd
        rw [hoff, if_pos hd]
        simp only [if_neg (by simp : ¬ (false = true))]
        rw [pushB_length]
      · intro hd
        rw [hoff, hd]
        simp
    | true =>
      refine ⟨2, by omega, ?_, ?_, ?_⟩
      · rw [hov, if_pos rfl, pushB_length, pushB_length, MAX_CTRLZ_STATES]
        omega
      · intro hd
        rw [hoff, if_pos hd, if_pos rfl, pushB_length, pushB_length, MAX_CTRLZ_STATES]
        omega
      · intro hd
        rw [hoff, hd]
        simp
  cases op with
  | stamp ev ctrl =>
    obtain ⟨ha, hov, hoff⟩ := mousePressLeft_admin ev false false ctrl s h
    exact key _ ha false hov hoff
  | stroke ev ctrl =>
    obtain ⟨ha, hov, hoff⟩ := mousePressLeft_admin ev false true ctrl s h
    exact key _ ha false hov hoff
  | floodAdd =>
    obtain ⟨ha, hov, hoff⟩ := keyF_admin s h
    exact key (keyF s) ha false (by rw [hov]; simp) (by rw [hoff]; simp)
  | floodRemove restrict =>
    cases restrict with
    | true =>
      obtain ⟨ha, hov, hoff⟩ := keyX_admin s h
      exact key (keyX true s) ha false (by rw [hov]; simp) (by rw [hoff]; simp)
    | false =>
      obtain ⟨ha, hov, hoff⟩ := keyQ_admin s h
      exact key (keyQ true s) ha false (by rw [hov]; simp) (by rw [hoff]; simp)
  | recolor ev ctrl =>
    obtain ⟨ha, hov, hoff⟩ := mousePressLeft_admin ev true false ctrl s h
    exact key _ ha true hov hoff

/-- A sequence of mutating calls, applied left to right. -/
def applyOps (ops : List MutOp) (s : AnnotState) : AnnotState :=
  ops.foldl (fun t o => applyMutOp o t) s

/-- `k` successive presses of Ctrl+Z. -/
def undoIter : Nat → AnnotState → AnnotState
  | 0, t => t
  | k + 1, t => undoIter k (keyZ true t)

theorem applyOps_invariant (ops : List MutOp) (s : AnnotState)
    (h : s.hasImage = true) :
    admin (applyOps ops s) = admin s ∧
    min MAX_CTRLZ_STATES (s.overlay_stack.length + ops.length) ≤
      (applyOps ops s).overlay_stack.length ∧
    (applyOps ops s).overlay_stack.length ≤
      max MAX_CTRLZ_STATES s.overlay_stack.length ∧
    (s.direct_mask_paint = true →
      s.offscreen_mask_stack.length = s.overlay_stack.length →
      (applyOps ops s).offscreen_mask_stack.length =
        (applyOps ops s).overlay_stack.length) ∧
    (s.direct_mask_paint = false →
      (applyOps ops s).offscreen_mask_stack = s.offscreen_mask_stack) := by
  induction ops generalizing s with
  | nil =>
    refine ⟨rfl, ?_, ?_, fun _ he => he, fun _ => rfl⟩
    · show MAX_CTRLZ_STATES ⊓ (s.overlay_stack.length + [].length) ≤ s.overlay_stack.length
      exact le_trans (min_le_right _ _) (by simp)
    · exact le_max_right _ _
  | cons op ops ih =>
    obtain ⟨ha, k, hk1, hov, hoffd, hoffn⟩ := applyMutOp_stack_lens op s h
    have hf := admin_fields ha
    have himg : (applyMutOp op s).hasImage = true := hf.2.2.1.trans h
    obtain ⟨ha2, hlow, hhigh, hdir2, hnd2⟩ := ih (applyMutOp op s) himg
    have hstep : applyOps (op :: ops) s = applyOps ops (applyMutOp op s) := rfl
    rw [hstep]
    refine ⟨ha2.trans ha, ?_, ?_, ?_, ?_⟩
    · refine le_trans ?_ hlow
      rw [hov]
      simp only [List.length_cons]
      omega
    · refine le_trans hhigh ?_
      rw [hov]
      simp only [MAX_CTRLZ_STATES] at *
      omega
    · intro hd he
      have hd2 : (applyMutOp op s).direct_mask_paint = true := hf.2.2.2.1.trans hd
      refine hdir2 hd2 ?_
      rw [hov, hoffd hd, he]
    · intro hd
      have hd2 : (applyMutOp op s).direct_mask_paint = false := hf.2.2.2.1.trans hd
      exact (hnd2 hd2).trans (hoffn hd)

theorem undoIter_pop (k : Nat) :
    ∀ t : AnnotState, t.hasImage = true → k ≤ t.overlay_stack.length →
    (t.direct_mask_paint = true →
      t.offscreen_mask_stack.length = t.overlay_stack.length) →
    admin (undoIter k t) = admin t ∧
    (undoIter k t).overlay_stack.length = t.overlay_stack.length - k ∧
    (t.direct_mask_paint = true →
      (undoIter k t).offscreen_mask_stack.length = t.overlay_stack.length - k) := by
  induction k with
  | zero =>
    intro t _ _ heq
    exact ⟨rfl, rfl, fun hd => (heq hd).symm ▸ rfl⟩
  | succ k ih =>
    intro t himg hk heq
    have hz : keyZ true t = undoZ t := by
      unfold keyZ
      rw [himg]
      rfl
    have hpos : 0 < t.overlay_stack.length := by omega
    obtain ⟨m, L, hov⟩ : ∃ m L, t.overlay_stack = m :: L := by
      cases hcase : t.overlay_stack with
      | nil => rw [hcase] at hpos; simp at hpos
      | cons m L => exact ⟨m, L, rfl⟩
    obtain ⟨_, hov2, hnd, hdir⟩ := undoZ_of_cons hov
    have ha : admin (undoZ t) = admin t := undoZ_admin t
    have hf := admin_fields ha
    have hlen2 : (undoZ t).overlay_stack.length = t.overlay_stack.length - 1 := by
      rw [hov2, hov]
      simp
    have himg2 : (undoZ t).hasImage = true := hf.2.2.1.trans himg
    have hofflen : (undoZ t).direct_mask_paint = true →
        (undoZ t).offscreen_mask_stack.length = (undoZ t).overlay_stack.length := by
      intro hd2
      have hd : t.direct_mask_paint = true := hf.2.2.2.1.symm.trans hd2
      have hoffpos : 0 < t.offscreen_mask_stack.length := by
        rw [heq hd, hov]
        simp
      obtain ⟨om, L2, hoffc⟩ : ∃ om L2, t.offscreen_mask_stack = om :: L2 := by
        cases hcase : t.offscreen_mask_stack with
        | nil => rw [hcase] at hoffpos; simp at hoffpos
        | cons om L2 => exact ⟨om, L2, rfl⟩
      have := (hdir om L2 hd hoffc).2
      rw [this, hlen2]
      have := heq hd
      rw [hoffc, hov] at this
      simp at this
      rw [hov]
      simp
      omega
    have hiter : undoIter (k + 1) t = undoIter k (undoZ t) := by
      show undoIter k (keyZ true t) = undoIter k (undoZ t)
      rw [hz]
    rw [hiter]
    obtain ⟨ha3, hlen3, hoff3⟩ := ih (undoZ t) himg2 (by omega) hofflen
    refine ⟨ha3.trans ha, ?_, ?_⟩
    · rw [hlen3, hlen2]
      omega
    · intro hd
      have hd2 : (undoZ t).direct_mask_paint = true := hf.2.2.2.1.trans hd
      rw [hoff3 hd2, hlen2]
      omega

/-- C6: with undo capacity `MAX_CTRLZ_STATES = 20` and drop-oldest eviction,
after 21 sequential mutating calls on a freshly initialized canvas (empty
undo stacks), the first 20 presses of Ctrl+Z each find a frame to restore
(the stack is nonempty), after which the history is empty and the 21st
press changes nothing at all. -/
theorem C6_undo_capacity (ops : List MutOp) (s : AnnotState)
    (hready : s.hasImage = true) (hov : s.overlay_stack = [])
    (hoff : s.offscreen_mask_stack = [])
    (hlen : ops.length = MAX_CTRLZ_STATES + 1) :
    (∀ k, k < MAX_CTRLZ_STATES →
      (undoIter k (applyOps ops s)).overlay_stack ≠ []) ∧
    (undoIter MAX_CTRLZ_STATES (applyOps ops s)).overlay_stack = [] ∧
    keyZ true (undoIter MAX_CTRLZ_STATES (applyOps ops s)) =
      undoIter MAX_CTRLZ_STATES (applyOps ops s) := by
  obtain ⟨ha, hlow, hhigh, hdir, hnd⟩ := applyOps_invariant ops s hready
  have hf := admin_fields ha
  set t := applyOps ops s with ht
  have hlen20 : t.overlay_stack.length = MAX_CTRLZ_STATES := by
    rw [hov, hlen] at hlow
    rw [hov] at hhigh
    simp only [MAX_CTRLZ_STATES, List.length_nil] at hlow hhigh ⊢
    omega
  have himg : t.hasImage = true := hf.2.2.1.trans hready
  have heq : t.direct_mask_paint = true →
      t.offscreen_mask_stack.length = t.overlay_stack.length := by
    intro hd
    have hds : s.direct_mask_paint = true := hf.2.2.2.1.symm.trans hd
    exact hdir hds (by simp [hov, hoff])
  refine ⟨?_, ?_, ?_⟩
  · intro k hk
    obtain ⟨_, hlenk, _⟩ := undoIter_pop k t himg (by omega) heq
    intro hnil
    rw [hnil] at hlenk
    simp at hlenk
    omega
  · obtain ⟨_, hlenk, _⟩ := undoIter_pop MAX_CTRLZ_STATES t himg (by omega) heq
    rw [hlen20] at hlenk
    simp at hlenk
    exact hlenk
  · obtain ⟨hak, hlenk, hoffk⟩ := undoIter_pop MAX_CTRLZ_STATES t himg (by omega) heq
    have hfk := admin_fields hak
    have himgk : (undoIter MAX_CTRLZ_STATES t).hasImage = true := hfk.2.2.1.trans himg
    have hz : keyZ true (undoIter MAX_CTRLZ_STATES t) =
        undoZ (undoIter MAX_CTRLZ_STATES t) := by
      unfold keyZ
      rw [himgk]
      rfl
    rw [hz]
    apply undoZ_of_nil
    · rw [hlen20] at hlenk
      simp at hlenk
      exact hlenk
    · intro hdk
      have hd : t.direct_mask_paint = true := hfk.2.2.2.1.symm.trans hdk
      have := hoffk hd
      rw [hlen20] at this
      simp at this
      exact this

/-! ## Dictionary lookup lemmas -/

theorem plookup_mem {κ β : Type} [DecidableEq κ] {d : List (κ × β)} {k : κ}
    {v : β} (h : plookup d k = some v) : (k, v) ∈ d := by
  induction d with
  | nil => simp [plookup] at h
  | cons a d ih =>
    obtain ⟨ak, av⟩ := a
    rw [plookup] at h
    split at h
    · rename_i heq
      injection h with h
      subst heq h
      exact List.mem_cons_self _ _
    · exact List.mem_cons_of_mem _ (ih h)

theorem plookup_append {κ β : Type} [DecidableEq κ] (d e : List (κ × β))
    (key : κ) :
    plookup (d ++ e) key =
      match plookup d key with
      | some v => some v
      | none => plookup e key := by
  induction d with
  | nil => simp [plookup]
  | cons a d ih =>
    obtain ⟨ak, av⟩ := a
    rw [List.cons_append, plookup, plookup]
    split
    · rfl
    · exact ih

theorem plookup_cons {κ β : Type} [DecidableEq κ] (p : κ × β)
    (d : List (κ × β)) (key : κ) :
    plookup (p :: d) key = if p.1 = key then some p.2 else plookup d key := rfl

theorem plookup_map_update {κ β : Type} [DecidableEq κ] (d : List (κ × β))
    (k : κ) (v : β) (key : κ) :
    plookup (d.map (fun kv => if kv.1 = k then (k, v) else kv)) key =
      (if key = k then (if (plookup d k).isSome then some v else none)
       else plookup d key) := by
  induction d with
  | nil => simp [plookup]
  | cons a d ih =>
    obtain ⟨ak, av⟩ := a
    by_cases hak : ak = k
    · subst hak
      by_cases hkey : key = ak
      · subst hkey
        simp [plookup_cons, ih]
      · simp [plookup_cons, ih, hkey, Ne.symm hkey]
    · by_cases hkey : key = k
      · subst hkey
        simp [plookup_cons, ih, hak, Ne.symm hak]
      · simp [plookup_cons, ih, hak, hkey]

theorem plookup_pinsert {κ β : Type} [DecidableEq κ] (d : List (κ × β))
    (k : κ) (v : β) (key : κ) :
    plookup (pinsert d k v) key =
      (if key = k then some v else plookup d key) := by
  unfold pinsert
  split
  · rename_i hsome
    simp [plookup_map_update, hsome]
  · rename_i hnone
    rw [plookup_append]
    by_cases hkey : key = k
    · subst hkey
      cases hcase : plookup d key with
      | none => simp [plookup, if_pos rfl]
      | some w =>
        rw [hcase] at hnone
        simp at hnone
    · cases hcase : plookup d key with
      | none => simp [plookup, if_neg (fun hc : k = key => hkey hc.symm), hkey]
      | some w => simp [hkey]

theorem plookupLast_append_single {κ β : Type} [DecidableEq κ]
    (d : List (κ × β)) (k : κ) (v : β) (key : κ) :
    plookupLast (d ++ [(k, v)]) key =
      (if key = k then some v else plookupLast d key) := by
  induction d with
  | nil =>
    simp only [List.nil_append, plookupLast]
    by_cases hkey : key = k
    · rw [if_pos hkey, if_pos hkey.symm]
    · rw [if_neg hkey, if_neg (fun hc : k = key => hkey hc.symm)]
  | cons a d ih =>
    obtain ⟨ak, av⟩ := a
    rw [List.cons_append, plookupLast, ih]
    by_cases hkey : key = k
    · simp only [if_pos hkey]
    · simp only [if_neg hkey]
      rfl

/-! ## C7: initialization does not check the color table -/

/-- A freshly constructed annotator (`QtImageAnnotator.__init__`): no image,
empty stacks, no conversion dicts, default brush `QColor(255, 0, 0, 99)`. -/
def emptyState : AnnotState where
  hgt := 0
  wdt := 0
  hasImage := false
  mask := fun _ _ => ⟨0, 0, 0, 0⟩
  direct_mask_paint := false
  offscreen_mask := fun _ _ => 0
  overlay_stack := []
  offscreen_mask_stack := []
  brush_fill_color := ⟨255, 0, 0, 99⟩
  brush_diameter := 50
  eraseMode := false
  global_erase_override := false
  d_rgb2gray := []
  d_gray2rgb := []
  lastPoint := (0, 0)
  lastCursorLocation := (0, 0)

/-- C7 counterexample: initializing a canvas with directMode requested while
no color table at all is installed does NOT fail — `clearAndSetImageAndMask`
returns without raising and leaves the annotator in direct mode with an
image loaded. -/
theorem C7_counterexample :
    (clearAndSetImageAndMask 2 2 (MaskArg.gray fun _ _ => 0) false true
        emptyState).2 = false ∧
    (clearAndSetImageAndMask 2 2 (MaskArg.gray fun _ _ => 0) false true
        emptyState).1.direct_mask_paint = true ∧
    (clearAndSetImageAndMask 2 2 (MaskArg.gray fun _ _ => 0) false true
        emptyState).1.hasImage = true ∧
    emptyState.d_rgb2gray = [] ∧ emptyState.d_gray2rgb = [] :=
  ⟨rfl, rfl, rfl, rfl, rfl⟩

/-- C7 (amended): `clearAndSetImageAndMask` performs no color-table check
when `direct_mask_paint` is requested (it raises at initialization only when
`process_gray2rgb` asks for a grayscale-to-RGB conversion without
`d_gray2rgb`); with no table installed the initialization succeeds, and the
configuration error (RuntimeError) is raised only by the first direct-mode
painting call (`fillMarker`), which leaves the class buffer untouched. -/
theorem C7_amended_fail_at_first_paint (ih iw : Nat) (m : Grid Nat)
    (ev : Int × Int) (s : AnnotState) (htbl : s.d_rgb2gray = []) :
    (clearAndSetImageAndMask ih iw (MaskArg.gray m) false true s).2 = false ∧
    ((clearAndSetImageAndMask ih iw (MaskArg.gray m) false true s).1).direct_mask_paint
      = true ∧
    (fillMarker ev
        ((clearAndSetImageAndMask ih iw (MaskArg.gray m) false true s).1)).2
      = true ∧
    (fillMarker ev
          ((clearAndSetImageAndMask ih iw (MaskArg.gray m) false true s).1)).1.offscreen_mask
      = ((clearAndSetImageAndMask ih iw (MaskArg.gray m) false true s).1).offscreen_mask := by
  have hd : ((clearAndSetImageAndMask ih iw (MaskArg.gray m) false true s).1).d_rgb2gray
      = [] := htbl
  have hdir : ((clearAndSetImageAndMask ih iw (MaskArg.gray m) false true s).1).direct_mask_paint
      = true := rfl
  refine ⟨rfl, rfl, ?_, ?_⟩
  · unfold fillMarker
    dsimp only
    rw [if_pos hdir, if_pos hd]
  · unfold fillMarker
    dsimp only
    rw [if_pos hdir, if_pos hd]

/-! ## C8: the color-table build performs no validation -/

/-- A specification with two entries sharing the class code 1. -/
def dupSpec : List CspecEntry :=
  [⟨(255, 0, 0), 1⟩, ⟨(0, 0, 255), 1⟩]

/-- C8 counterexample: a table whose class codes are not unique is accepted
without any error: `add_colors_to_list` builds both lookup dicts anyway,
with the later entry silently overwriting the earlier one in `d_gray2rgb`. -/
theorem C8_counterexample :
    add_colors_to_list dupSpec =
      ([((255, 0, 0), 1), ((0, 0, 255), 1)], [(1, (0, 0, 255))]) := by
  decide

/-- C8 (amended): `add_colors_to_list` performs no validation at all —
class codes need not be unique and display colors need not be
distinguishable; both lookup directions are built for every table, with a
later row overwriting an earlier row that has the same key (dict insertion
semantics), so each lookup returns the value of the last row carrying the
looked-up key. -/
theorem C8_amended_no_validation (cspec : List CspecEntry) :
    (∀ g : Nat, lookupG (add_colors_to_list cspec).2 g =
      plookupLast (cspec.map fun c => (c.gval, c.hexrgb)) g) ∧
    (∀ k : Rgb, lookupD (add_colors_to_list cspec).1 k =
      plookupLast (cspec.map fun c => (c.hexrgb, c.gval)) k) := by
  induction cspec using List.reverseRecOn with
  | nil => exact ⟨fun g => rfl, fun k => rfl⟩
  | append_singleton xs c ih =>
    have hstep : add_colors_to_list (xs ++ [c]) =
        (dinsertR (add_colors_to_list xs).1 c.hexrgb c.gval,
         dinsertG (add_colors_to_list xs).2 c.gval c.hexrgb) := by
      unfold add_colors_to_list
      rw [List.foldl_append]
      rfl
    constructor
    · intro g
      rw [hstep]
      show plookup (pinsert (add_colors_to_list xs).2 c.gval c.hexrgb) g = _
      rw [plookup_pinsert, List.map_append]
      simp only [List.map_cons, List.map_nil]
      rw [plookupLast_append_single]
      rw [← ih.1 g]
      rfl
    · intro k
      rw [hstep]
      show plookup (pinsert (add_colors_to_list xs).1 c.hexrgb c.gval) k = _
      rw [plookup_pinsert, List.map_append]
      simp only [List.map_cons, List.map_nil]
      rw [plookupLast_append_single]
      rw [← ih.2 k]
      rfl

/-! ## C3: floodAdd is idempotent -/

theorem mskOf_cases (s : AnnotState) (p : Nat × Nat) :
    mskOf s p = 0 ∨ mskOf s p = 255 := by
  unfold mskOf
  split
  · exact Or.inl rfl
  · exact Or.inr rfl

theorem msk1Of_false (s : AnnotState) : msk1Of s false = mskOf s := by
  funext p
  unfold msk1Of
  simp

theorem theMaskOf_false (s : AnnotState) (rocc : Bool) :
    theMaskOf s false rocc = fun p => 255 - mskOf s p := by
  funext p
  unfold theMaskOf
  simp

theorem fillCond_false (s : AnnotState) (rocc : Bool) :
    fillCond s false rocc =
      fun q => ((255 - mskOf s q == 0) && (mskOf s q == mskOf s (seedOf s))) := by
  funext q
  unfold fillCond
  rw [theMaskOf_false, msk1Of_false]

theorem seedInBounds_toNat {s : AnnotState} (h : seedInBounds s) :
    (seedOf s).1 < s.wdt ∧ (seedOf s).2 < s.hgt := by
  obtain ⟨h1, h2, h3, h4⟩ := h
  unfold seedOf
  constructor
  · dsimp only
    omega
  · dsimp only
    omega

/-- Membership in the floodAdd region forces an unoccupied pixel. -/
theorem fillRegionAdd_unoccupied {s : AnnotState} {p : Nat × Nat}
    (hp : p ∈ fillRegion s false true) : mskOf s p = 255 := by
  have hc := (floodRegion_subset hp).2.2
  rw [fillCond_false] at hc
  dsimp only at hc
  rcases mskOf_cases s p with h | h
  · rw [h] at hc
    simp at hc
  · exact h

/-- `paintin` marks exactly the flooded region in the floodAdd case. -/
theorem paintinAdd_eq (s : AnnotState) (p : Nat × Nat) :
    paintinOf s false true p =
      (if p ∈ fillRegion s false true then 255 else 0) := by
  by_cases hp : p ∈ fillRegion s false true
  · simp [paintinOf, hp, fillRegionAdd_unoccupied hp]
  · simp [paintinOf, hp, msk1Of_false]

/-- floodAdd with the seed on an occupied pixel changes no mask byte (the
flood-fill condition fails at the seed, so nothing is painted); this also
covers an out-of-bounds seed. -/
theorem fillAdd_mask_noop_of_occupied (t : AnnotState)
    (hocc : mskOf t (seedOf t) = 0) :
    ((fillArea false true t).1).mask = t.mask := by
  unfold fillArea
  dsimp only
  by_cases hb : seedInBounds t
  · rw [if_pos hb]
    have hreg : fillRegion t false true = ∅ := by
      unfold fillRegion floodRegion
      rw [if_neg]
      intro hg
      have hc := hg.2.2
      rw [fillCond_false] at hc
      dsimp only at hc
      rw [hocc] at hc
      simp at hc
    have hnm : ∀ x y, paintinOf t false true (x, y) = 0 := by
      intro x y
      rw [paintinAdd_eq, hreg]
      simp
    have hmask :
        (fun x y =>
          if false = true then
            (if paintinOf t false true (x, y) = 0 then (⟨0, 0, 0, 0⟩ : Rgba)
             else t.mask x y)
          else
            (if paintinOf t false true (x, y) = 255 then t.brush_fill_color
             else t.mask x y)) = t.mask := by
      funext x y
      rw [hnm x y]
      simp
    by_cases hd : t.direct_mask_paint = true
    · rw [if_pos hd]
      cases hl : lookupD t.d_rgb2gray t.brush_fill_color.rgb with
      | none => rfl
      | some tc => exact hmask
    · rw [if_neg hd]
      exact hmask
  · rw [if_neg hb]
    rfl

/-- floodAdd in direct mode with a brush color missing from `d_rgb2gray`:
the KeyError aborts the call before either buffer is committed. -/
theorem fillAdd_mask_noop_of_keyerr (t : AnnotState)
    (hd : t.direct_mask_paint = true)
    (hl : lookupD t.d_rgb2gray t.brush_fill_color.rgb = none) :
    ((fillArea false true t).1).mask = t.mask := by
  unfold fillArea
  dsimp only
  by_cases hb : seedInBounds t
  · rw [if_pos hb, if_pos hd, hl]
    simp [snapshotPush]
  · rw [if_neg hb]
    rfl

/-- The mask produced by a successful floodAdd: the flooded pixels get the
brush color, all others keep their bytes. -/
theorem fillAdd_mask_paint (t : AnnotState) (hb : seedInBounds t)
    (hok : t.direct_mask_paint = false ∨
      ∃ tc, lookupD t.d_rgb2gray t.brush_fill_color.rgb = some tc) :
    ((fillArea false true t).1).mask = fun x y =>
      if paintinOf t false true (x, y) = 255 then t.brush_fill_color
      else t.mask x y := by
  unfold fillArea
  dsimp only
  rw [if_pos hb]
  rcases hok with hnd | ⟨tc, htc⟩
  · rw [if_neg (by rw [hnd]; simp)]
    funext x y
    simp
  · by_cases hd : t.direct_mask_paint = true
    · rw [if_pos hd, htc]
      funext x y
      simp
    · rw [if_neg hd]
      funext x y
      simp

theorem seedOf_congr {t s : AnnotState}
    (h : t.lastCursorLocation = s.lastCursorLocation) : seedOf t = seedOf s := by
  unfold seedOf
  rw [h]

theorem seedInBounds_congr {t s : AnnotState}
    (h : t.lastCursorLocation = s.lastCursorLocation) (hw : t.wdt = s.wdt)
    (hh : t.hgt = s.hgt) : seedInBounds t ↔ seedInBounds s := by
  unfold seedInBounds
  rw [h, hw, hh]

theorem mskOf_congr {t s : AnnotState}
    (h : ∀ x y, (t.mask x y).a = (s.mask x y).a) : mskOf t = mskOf s := by
  funext p
  unfold mskOf
  rw [h p.1 p.2]

theorem fillRegionAdd_congr {t s : AnnotState} (hm : mskOf t = mskOf s)
    (hc : seedOf t = seedOf s) (hw : t.wdt = s.wdt) (hh : t.hgt = s.hgt) :
    fillRegion t false true = fillRegion s false true := by
  unfold fillRegion
  rw [hw, hh, hc, fillCond_false, fillCond_false, hm, hc]

theorem paintinAdd_congr {t s : AnnotState} (hm : mskOf t = mskOf s)
    (hr : fillRegion t false true = fillRegion s false true) :
    paintinOf t false true = paintinOf s false true := by
  funext p
  unfold paintinOf
  rw [hm, hr, msk1Of_false, msk1Of_false, hm]

/-- C3: floodAdd is idempotent — applying it twice from the same cursor
position yields the same MaskLayer as applying it once; in particular, if
the seed lands on an occupied pixel (or outside the canvas) a single call
already changes nothing. -/
theorem C3_floodAdd_idempotent (s : AnnotState) :
    ((fillArea false true ((fillArea false true s).1)).1).mask =
      ((fillArea false true s).1).mask ∧
    (mskOf s (seedOf s) = 0 → ((fillArea false true s).1).mask = s.mask) := by
  obtain ⟨ha, _, _⟩ := fillArea_admin false true s
  have hf := admin_fields ha
  set t := (fillArea false true s).1 with ht
  have hcur : t.lastCursorLocation = s.lastCursorLocation := hf.2.2.2.2.2.2.2.2.2
  have hw : t.wdt = s.wdt := hf.2.1
  have hh : t.hgt = s.hgt := hf.1
  have hbr : t.brush_fill_color = s.brush_fill_color := hf.2.2.2.2.1
  have hdmp : t.direct_mask_paint = s.direct_mask_paint := hf.2.2.2.1
  have hrg : t.d_rgb2gray = s.d_rgb2gray := hf.2.2.2.2.2.2.2.1
  have hseed : seedOf t = seedOf s := seedOf_congr hcur
  have hbiff : seedInBounds t ↔ seedInBounds s := seedInBounds_congr hcur hw hh
  refine ⟨?_, fun hocc => fillAdd_mask_noop_of_occupied s hocc⟩
  by_cases hb : seedInBounds s
  · by_cases hocc : mskOf s (seedOf s) = 0
    · -- the first call is already a no-op, and its output state has the
      -- same mask, so the second call is the same no-op
      have h1 : t.mask = s.mask := fillAdd_mask_noop_of_occupied s hocc
      have hm : mskOf t = mskOf s := mskOf_congr (fun x y => by rw [h1])
      apply fillAdd_mask_noop_of_occupied t
      rw [hm, hseed]
      exact hocc
    · have hunocc : mskOf s (seedOf s) = 255 := by
        rcases mskOf_cases s (seedOf s) with h | h
        · exact absurd h hocc
        · exact h
      by_cases herr : s.direct_mask_paint = true ∧
          lookupD s.d_rgb2gray s.brush_fill_color.rgb = none
      · -- KeyError on both calls: neither mutates the mask
        have h1 : t.mask = s.mask := fillAdd_mask_noop_of_keyerr s herr.1 herr.2
        apply fillAdd_mask_noop_of_keyerr t
        · rw [hdmp]
          exact herr.1
        · rw [hrg, hbr]
          exact herr.2
      · have hok : s.direct_mask_paint = false ∨
            ∃ tc, lookupD s.d_rgb2gray s.brush_fill_color.rgb = some tc := by
          by_cases hd : s.direct_mask_paint = true
          · right
            cases hl : lookupD s.d_rgb2gray s.brush_fill_color.rgb with
            | none => exact absurd ⟨hd, hl⟩ herr
            | some tc => exact ⟨tc, rfl⟩
          · left
            cases hcd : s.direct_mask_paint with
            | false => rfl
            | true => exact absurd hcd hd
        have h1 : t.mask = fun x y =>
            if paintinOf s false true (x, y) = 255 then s.brush_fill_color
            else s.mask x y := fillAdd_mask_paint s hb hok
        have hokt : t.direct_mask_paint = false ∨
            ∃ tc, lookupD t.d_rgb2gray t.brush_fill_color.rgb = some tc := by
          rw [hdmp, hrg, hbr]
          exact hok
        have hbt : seedInBounds t := hbiff.mpr hb
        by_cases hba : 0 < s.brush_fill_color.a
        · -- the seed pixel is now painted and occupied: the second call
          -- fails its flood condition at the seed and changes nothing
          apply fillAdd_mask_noop_of_occupied t
          have hseedr : seedOf s ∈ fillRegion s false true := by
            apply seed_mem_floodRegion
            · exact (seedInBounds_toNat hb).1
            · exact (seedInBounds_toNat hb).2
            · rw [fillCond_false]
              dsimp only
              rw [hunocc]
              rfl
          have hpaint : paintinOf s false true (seedOf s) = 255 := by
            rw [paintinAdd_eq, if_pos hseedr]
          rw [hseed]
          unfold mskOf
          rw [h1]
          dsimp only
          rw [hpaint]
          simp [hba]
        · -- transparent brush: occupancy is unchanged, so the second flood
          -- computes the same region and repaints it with the same bytes
          have hba0 : s.brush_fill_color.a = 0 := by omega
          have halpha : ∀ x y, (t.mask x y).a = (s.mask x y).a := by
            intro x y
            rw [h1]
            dsimp only
            by_cases hp : paintinOf s false true (x, y) = 255
            · rw [if_pos hp]
              have hmem : (x, y) ∈ fillRegion s false true := by
                rw [paintinAdd_eq] at hp
                by_cases hm : (x, y) ∈ fillRegion s false true
                · exact hm
                · rw [if_neg hm] at hp
                  simp at hp
              have := fillRegionAdd_unoccupied hmem
              unfold mskOf at this
              dsimp only at this
              split at this
              · simp at this
              · rename_i hna
                rw [hba0]
                omega
            · rw [if_neg hp]
          have hm : mskOf t = mskOf s := mskOf_congr halpha
          have hr : fillRegion t false true = fillRegion s false true :=
            fillRegionAdd_congr hm hseed hw hh
          have hp : paintinOf t false true = paintinOf s false true :=
            paintinAdd_congr hm hr
          have h2 : ((fillArea false true t).1).mask = fun x y =>
              if paintinOf t false true (x, y) = 255 then t.brush_fill_color
              else t.mask x y := fillAdd_mask_paint t hbt hokt
          rw [h2]
          funext x y
          rw [hp, hbr, h1]
          dsimp only
          by_cases hpx : paintinOf s false true (x, y) = 255
          · rw [if_pos hpx, if_pos hpx]
          · rw [if_neg hpx, if_neg hpx]
  · -- out-of-bounds seed: both calls raise before touching the mask
    have hbt : ¬ seedInBounds t := fun hc => hb (hbiff.mp hc)
    rw [fillArea_oob false true t hbt]
    rfl

/-! ## C5: recolor repaints exactly the connected occupied region -/

/-- Occupancy as a pixel predicate: the transparency channel is nonzero. -/
def occB (s : AnnotState) : Nat × Nat → Bool := fun q =>
  decide (0 < (s.mask q.1 q.2).a)

theorem mskOf_eq_zero_iff (s : AnnotState) (q : Nat × Nat) :
    mskOf s q = 0 ↔ 0 < (s.mask q.1 q.2).a := by
  unfold mskOf
  split
  · simp [*]
  · simp [*]

/-- With an occupied seed, the repaint flood condition is exactly
occupancy. -/
theorem repaintCond_eq_occB (s : AnnotState)
    (hocc : mskOf s (seedOf s) = 0) : repaintCond s = occB s := by
  funext q
  unfold repaintCond occB
  rw [hocc]
  rcases mskOf_cases s q with h | h
  · rw [h]
    have := (mskOf_eq_zero_iff s q).mp h
    simp [this]
  · rw [h]
    have : ¬ (0 < (s.mask q.1 q.2).a) := by
      intro hc
      rw [(mskOf_eq_zero_iff s q).mpr hc] at h
      simp at h
    simp [this]

theorem repaintRegion_occupied {s : AnnotState} {p : Nat × Nat}
    (hp : p ∈ repaintRegion s) (hocc : mskOf s (seedOf s) = 0) :
    mskOf s p = 0 := by
  have hc := (floodRegion_subset hp).2.2
  rw [repaintCond_eq_occB s hocc] at hc
  unfold occB at hc
  simp at hc
  exact (mskOf_eq_zero_iff s p).mpr hc

/-- `paintin = msk XOR msk1` marks exactly the flooded component (which is
occupied when the seed is). -/
theorem repaintPaintin_eq (s : AnnotState) (p : Nat × Nat)
    (hocc : mskOf s (seedOf s) = 0) :
    repaintPaintin s p = (if p ∈ repaintRegion s then 0 else 255) := by
  unfold repaintPaintin
  by_cases hp : p ∈ repaintRegion s
  · rw [if_pos hp, if_pos hp, repaintRegion_occupied hp hocc]
    decide
  · rw [if_neg hp, if_neg hp]
    rcases mskOf_cases s p with h | h
    · rw [h]
      decide
    · rw [h]
      decide

/-- The mask produced by a successful repaint. -/
theorem repaint_mask_paint (t : AnnotState) (hb : seedInBounds t)
    (hok : t.direct_mask_paint = false ∨
      ∃ tc, lookupD t.d_rgb2gray t.brush_fill_color.rgb = some tc) :
    ((repaintArea t).1).mask = fun x y =>
      if repaintPaintin t (x, y) = 0 then t.brush_fill_color else t.mask x y := by
  unfold repaintArea
  dsimp only
  rw [if_pos hb]
  rcases hok with hnd | ⟨tc, htc⟩
  · rw [if_neg (by rw [hnd]; simp)]
  · by_cases hd : t.direct_mask_paint = true
    · rw [if_pos hd, htc]
    · rw [if_neg hd]

/-- The off-screen mask produced by a successful repaint in direct mode. -/
theorem repaint_offscreen_paint (t : AnnotState) (tc : Nat)
    (hb : seedInBounds t) (hd : t.direct_mask_paint = true)
    (htc : lookupD t.d_rgb2gray t.brush_fill_color.rgb = some tc) :
    ((repaintArea t).1).offscreen_mask = fun x y =>
      if repaintPaintin t (x, y) = 0 then tc else t.offscreen_mask x y := by
  unfold repaintArea
  dsimp only
  rw [if_pos hb, if_pos hd, htc]

/-- The off-screen mask is untouched by repaint outside direct mode. -/
theorem repaint_offscreen_nondirect (t : AnnotState)
    (hd : t.direct_mask_paint = false) :
    ((repaintArea t).1).offscreen_mask = t.offscreen_mask := by
  unfold repaintArea
  dsimp only
  by_cases hb : seedInBounds t
  · rw [if_pos hb, if_neg (by rw [hd]; simp)]
    rfl
  · rw [if_neg hb]
    rfl

/-- C5: for a seed on an occupied pixel, `repaintArea` repaints every pixel
of the maximal 4-connected occupied region containing the seed (connectivity
through occupancy only, ignoring color boundaries) to the current brush
color — in direct mode writing its class code `tc` to the ClassBuffer — and
leaves every pixel outside that region unchanged in both buffers, so the
region's shape (the occupancy pattern) is exactly preserved. -/
theorem C5_recolor_exact (s : AnnotState) (tc : Nat)
    (hb : seedInBounds s)
    (hocc : 0 < (s.mask (seedOf s).1 (seedOf s).2).a)
    (hba : 0 < s.brush_fill_color.a)
    (htc : s.direct_mask_paint = true →
      lookupD s.d_rgb2gray s.brush_fill_color.rgb = some tc) :
    ∀ y, y < s.hgt → ∀ x, x < s.wdt →
      (Reach s.wdt s.hgt (occB s) (seedOf s) (x, y) →
        ((repaintArea s).1).mask x y = s.brush_fill_color ∧
        (s.direct_mask_paint = true →
          ((repaintArea s).1).offscreen_mask x y = tc)) ∧
      (¬ Reach s.wdt s.hgt (occB s) (seedOf s) (x, y) →
        ((repaintArea s).1).mask x y = s.mask x y ∧
        ((repaintArea s).1).offscreen_mask x y = s.offscreen_mask x y) ∧
      (0 < (((repaintArea s).1).mask x y).a ↔ 0 < (s.mask x y).a) := by
  have hocc0 : mskOf s (seedOf s) = 0 := (mskOf_eq_zero_iff s (seedOf s)).mpr hocc
  have hok : s.direct_mask_paint = false ∨
      ∃ tc2, lookupD s.d_rgb2gray s.brush_fill_color.rgb = some tc2 := by
    by_cases hd : s.direct_mask_paint = true
    · exact Or.inr ⟨tc, htc hd⟩
    · left
      cases hcd : s.direct_mask_paint with
      | false => rfl
      | true => exact absurd hcd hd
  have hmask := repaint_mask_paint s hb hok
  have hmem : ∀ p : Nat × Nat,
      p ∈ repaintRegion s ↔ Reach s.wdt s.hgt (occB s) (seedOf s) p := by
    intro p
    unfold repaintRegion
    rw [repaintCond_eq_occB s hocc0]
    exact mem_floodRegion_iff (seedInBounds_toNat hb).1 (seedInBounds_toNat hb).2
      (by unfold occB; simp [hocc]) p
  have hoffeq : ∀ x y, (s.direct_mask_paint = true →
        ((repaintArea s).1).offscreen_mask x y =
          (if (x, y) ∈ repaintRegion s then tc else s.offscreen_mask x y)) ∧
      (s.direct_mask_paint = false →
        ((repaintArea s).1).offscreen_mask x y = s.offscreen_mask x y) := by
    intro x y
    constructor
    · intro hd
      rw [repaint_offscreen_paint s tc hb hd (htc hd)]
      dsimp only
      rw [repaintPaintin_eq s (x, y) hocc0]
      by_cases hp : (x, y) ∈ repaintRegion s
      · rw [if_pos hp, if_pos hp]
        simp
      · rw [if_neg hp, if_neg hp]
        simp
    · intro hd
      rw [repaint_offscreen_nondirect s hd]
  intro y hy x hx
  refine ⟨?_, ?_, ?_⟩
  · intro hreach
    have hp : (x, y) ∈ repaintRegion s := (hmem (x, y)).mpr hreach
    constructor
    · rw [hmask]
      dsimp only
      rw [repaintPaintin_eq s (x, y) hocc0, if_pos hp]
      simp
    · intro hd
      rw [((hoffeq x y).1 hd), if_pos hp]
  · intro hreach
    have hp : (x, y) ∉ repaintRegion s := fun hc => hreach ((hmem (x, y)).mp hc)
    constructor
    · rw [hmask]
      dsimp only
      rw [repaintPaintin_eq s (x, y) hocc0, if_neg hp]
      simp
    · by_cases hd : s.direct_mask_paint = true
      · rw [((hoffeq x y).1 hd), if_neg hp]
      · refine (hoffeq x y).2 ?_
        cases hcd : s.direct_mask_paint with
        | false => rfl
        | true => exact absurd hcd hd
  · rw [hmask]
    dsimp only
    rw [repaintPaintin_eq s (x, y) hocc0]
    by_cases hp : (x, y) ∈ repaintRegion s
    · rw [if_pos hp]
      simp only [if_pos rfl]
      have := repaintRegion_occupied hp hocc0
      have hxy := (mskOf_eq_zero_iff s (x, y)).mp this
      constructor
      · intro _
        exact hxy
      · intro _
        exact hba
    · rw [if_neg hp]
      simp

/-! ## C4: color-restricted floodRemove clears exactly the matching patch -/

/-- The claim-side pixel predicate: occupied and matching the current brush
color within the per-channel tolerance. -/
def occMatchB (s : AnnotState) : Nat × Nat → Bool := fun q =>
  occB s q && colorNear (s.mask q.1 q.2) s.brush_fill_color

theorem msk1Of_true (s : AnnotState) :
    msk1Of s true = fun p => 255 - mskOf s p := by
  funext p
  unfold msk1Of
  simp

theorem theMaskOf_true_true (s : AnnotState) :
    theMaskOf s true true = fun p =>
      if colorNear (s.mask p.1 p.2) s.brush_fill_color then 0 else 255 := by
  funext p
  unfold theMaskOf
  simp

/-- With an occupied seed, the restricted-removal flood condition is
occupancy plus a color match. -/
theorem fillCond_remove_eq (s : AnnotState)
    (hocc0 : mskOf s (seedOf s) = 0) :
    fillCond s true true = occMatchB s := by
  funext q
  unfold fillCond occMatchB occB
  rw [theMaskOf_true_true, msk1Of_true]
  dsimp only
  rw [hocc0]
  rcases mskOf_cases s q with h | h
  · have hq := (mskOf_eq_zero_iff s q).mp h
    rw [h]
    by_cases hc : colorNear (s.mask q.1 q.2) s.brush_fill_color = true
    · simp [hc, hq]
    · simp [hc, hq]
  · have hq : ¬ (0 < (s.mask q.1 q.2).a) := by
      intro hcc
      rw [(mskOf_eq_zero_iff s q).mpr hcc] at h
      simp at h
    rw [h]
    by_cases hc : colorNear (s.mask q.1 q.2) s.brush_fill_color = true
    · simp [hc, hq]
    · simp [hc, hq]

theorem paintinRemove_eq (s : AnnotState) (rocc : Bool) (p : Nat × Nat) :
    paintinOf s true rocc p =
      (if p ∈ fillRegion s true rocc then 0 else 255 - mskOf s p) := by
  unfold paintinOf
  rw [msk1Of_true]
  simp

/-- The mask produced by a removal with an in-bounds seed. -/
theorem fillRemove_mask (t : AnnotState) (rocc : Bool) (hb : seedInBounds t) :
    ((fillArea true rocc t).1).mask = fun x y =>
      if paintinOf t true rocc (x, y) = 0 then ⟨0, 0, 0, 0⟩
      else t.mask x y := by
  unfold fillArea
  dsimp only
  rw [if_pos hb]
  by_cases hd : t.direct_mask_paint = true
  · rw [if_pos hd]
    simp only [if_pos rfl]
    funext x y
    simp
  · rw [if_neg hd]
    funext x y
    simp

/-- The off-screen mask produced by a removal in direct mode. -/
theorem fillRemove_offscreen_direct (t : AnnotState) (rocc : Bool)
    (hb : seedInBounds t) (hd : t.direct_mask_paint = true) :
    ((fillArea true rocc t).1).offscreen_mask = fun x y =>
      if paintinOf t true rocc (x, y) = 0 then 0
      else t.offscreen_mask x y := by
  unfold fillArea
  dsimp only
  rw [if_pos hb, if_pos hd]
  funext x y
  simp

/-- The off-screen mask is untouched by removal outside direct mode. -/
theorem fillRemove_offscreen_nondirect (t : AnnotState) (rocc : Bool)
    (hd : t.direct_mask_paint = false) :
    ((fillArea true rocc t).1).offscreen_mask = t.offscreen_mask := by
  unfold fillArea
  dsimp only
  by_cases hb : seedInBounds t
  · rw [if_pos hb, if_neg (by rw [hd]; simp)]
    rfl
  · rw [if_neg hb]
    rfl

/-- C4: `fillArea(remove_closed_contour=True, remove_only_current_color=True)`
with a seed on an occupied, color-matching pixel clears exactly the maximal
4-connected patch of occupied pixels matching the current brush color that
contains the seed; every pixel outside that patch — including disjoint
occupied patches of the same color — keeps its MaskLayer bytes (and, in
direct mode, its ClassBuffer byte), given the invariant that transparent
pixels are fully zeroed in both buffers. -/
theorem C4_floodRemove_exact (s : AnnotState)
    (hb : seedInBounds s)
    (hocc : 0 < (s.mask (seedOf s).1 (seedOf s).2).a)
    (hmatch : colorNear (s.mask (seedOf s).1 (seedOf s).2) s.brush_fill_color
      = true)
    (hcanon : ∀ y, y < s.hgt → ∀ x, x < s.wdt →
      (s.mask x y).a = 0 → s.mask x y = ⟨0, 0, 0, 0⟩)
    (hcanonOff : s.direct_mask_paint = true → ∀ y, y < s.hgt → ∀ x, x < s.wdt →
      (s.mask x y).a = 0 → s.offscreen_mask x y = 0) :
    ∀ y, y < s.hgt → ∀ x, x < s.wdt →
      (Reach s.wdt s.hgt (occMatchB s) (seedOf s) (x, y) →
        ((fillArea true true s).1).mask x y = ⟨0, 0, 0, 0⟩ ∧
        (s.direct_mask_paint = true →
          ((fillArea true true s).1).offscreen_mask x y = 0)) ∧
      (¬ Reach s.wdt s.hgt (occMatchB s) (seedOf s) (x, y) →
        ((fillArea true true s).1).mask x y = s.mask x y ∧
        ((fillArea true true s).1).offscreen_mask x y = s.offscreen_mask x y) := by
  have hocc0 : mskOf s (seedOf s) = 0 := (mskOf_eq_zero_iff s (seedOf s)).mpr hocc
  have hmask := fillRemove_mask s true hb
  have hmem : ∀ p : Nat × Nat,
      p ∈ fillRegion s true true ↔
        Reach s.wdt s.hgt (occMatchB s) (seedOf s) p := by
    intro p
    unfold fillRegion
    rw [fillCond_remove_eq s hocc0]
    refine mem_floodRegion_iff (seedInBounds_toNat hb).1 (seedInBounds_toNat hb).2
      ?_ p
    unfold occMatchB occB
    simp [hocc, hmatch]
  intro y hy x hx
  constructor
  · intro hreach
    have hp : (x, y) ∈ fillRegion s true true := (hmem (x, y)).mpr hreach
    constructor
    · rw [hmask]
      dsimp only
      rw [paintinRemove_eq s true, if_pos hp]
      simp
    · intro hd
      rw [fillRemove_offscreen_direct s true hb hd]
      dsimp only
      rw [paintinRemove_eq s true, if_pos hp]
      simp
  · intro hreach
    have hp : (x, y) ∉ fillRegion s true true :=
      fun hc => hreach ((hmem (x, y)).mp hc)
    rcases mskOf_cases s (x, y) with hm | hm
    · -- occupied pixel outside the patch: untouched
      have hpaint : paintinOf s true true (x, y) = 255 := by
        rw [paintinRemove_eq s true, if_neg hp, hm]
      constructor
      · rw [hmask]
        dsimp only
        rw [hpaint]
        simp
      · by_cases hd : s.direct_mask_paint = true
        · rw [fillRemove_offscreen_direct s true hb hd]
          dsimp only
          rw [hpaint]
          simp
        · refine congrFun (congrFun (fillRemove_offscreen_nondirect s true ?_) x) y
          cases hcd : s.direct_mask_paint with
          | false => rfl
          | true => exact absurd hcd hd
    · -- transparent pixel outside the patch: rewritten with zeros, which
      -- equals its current content by the canonical-zero invariant
      have hpaint : paintinOf s true true (x, y) = 0 := by
        rw [paintinRemove_eq s true, if_neg hp, hm]
      have ha0 : (s.mask x y).a = 0 := by
        have := (mskOf_eq_zero_iff s (x, y)).mp
        by_cases hc : 0 < (s.mask x y).a
        · rw [(mskOf_eq_zero_iff s (x, y)).mpr hc] at hm
          simp at hm
        · omega
      constructor
      · rw [hmask]
        dsimp only
        rw [hpaint]
        simp
        exact (hcanon y hy x hx ha0).symm
      · by_cases hd : s.direct_mask_paint = true
        · rw [fillRemove_offscreen_direct s true hb hd]
          dsimp only
          rw [hpaint]
          simp
          exact (hcanonOff hd y hy x hx ha0).symm
        · refine congrFun (congrFun (fillRemove_offscreen_nondirect s true ?_) x) y
          cases hcd : s.direct_mask_paint with
          | false => rfl
          | true => exact absurd hcd hd

/-! ## C2: MaskLayer/ClassBuffer consistency in direct mode -/

/-- A mask pixel and its class code agree under the color table: an
erased/transparent pixel carries class 0, and a painted pixel whose RGB
matches a table color within the per-channel tolerance carries that color's
class code. -/
def pixConsistent (tbl : List (Rgb × Nat)) (p : Rgba) (c : Nat) : Prop :=
  (p.a = 0 → c = 0) ∧
  ∀ kv ∈ tbl, p.a ≠ 0 → rgbNear kv.1 p.rgb = true → c = kv.2

/-- Pixel-wise consistency of the two buffers over the canvas. -/
def bufConsistent (tbl : List (Rgb × Nat)) (h w : Nat) (m : Grid Rgba)
    (om : Grid Nat) : Prop :=
  ∀ y, y < h → ∀ x, x < w → pixConsistent tbl (m x y) (om x y)

/-- The live buffers and every pair of undo frames are consistent. -/
def stateConsistent (s : AnnotState) : Prop :=
  bufConsistent s.d_rgb2gray s.hgt s.wdt s.mask s.offscreen_mask ∧
  List.Forall₂ (bufConsistent s.d_rgb2gray s.hgt s.wdt)
    s.overlay_stack s.offscreen_mask_stack

/-- The installed table maps tolerance-close colors to the same class code
(in particular its colors are pairwise distinguishable beyond the
tolerance, up to entries of the same class). -/
def tableOk (tbl : List (Rgb × Nat)) : Prop :=
  ∀ kv1 ∈ tbl, ∀ kv2 ∈ tbl, rgbNear kv1.1 kv2.1 = true → kv1.2 = kv2.2

/-- The working hypotheses of direct-mode painting: direct mode on, a sane
table, the brush color present in it, an opaque brush, and consistent
buffers. -/
def goodState (s : AnnotState) : Prop :=
  s.direct_mask_paint = true ∧
  tableOk s.d_rgb2gray ∧
  (∃ tc, lookupD s.d_rgb2gray s.brush_fill_color.rgb = some tc) ∧
  s.brush_fill_color.a ≠ 0 ∧
  stateConsistent s

theorem pixConsistent_clear (tbl : List (Rgb × Nat)) :
    pixConsistent tbl ⟨0, 0, 0, 0⟩ 0 := by
  constructor
  · intro _
    rfl
  · intro kv _ ha _
    exact absurd rfl ha

theorem pixConsistent_brush {tbl : List (Rgb × Nat)} {b : Rgba} {tc : Nat}
    (htbl : tableOk tbl) (hmem : (b.rgb, tc) ∈ tbl) (hba : b.a ≠ 0) :
    pixConsistent tbl b tc := by
  constructor
  · intro h0
    exact absurd h0 hba
  · intro kv hkv _ hnear
    exact (htbl kv hkv (b.rgb, tc) hmem hnear).symm

theorem pixConsistent_mode (tbl : List (Rgb × Nat)) (e : Bool) {b : Rgba}
    {tc : Nat} (htbl : tableOk tbl) (hmem : (b.rgb, tc) ∈ tbl)
    (hba : b.a ≠ 0) :
    pixConsistent tbl (if e then ⟨0, 0, 0, 0⟩ else b) (if e then 0 else tc) := by
  cases e
  · simpa using pixConsistent_brush htbl hmem hba
  · simpa using pixConsistent_clear tbl

/-- Painting the same set of pixels with a consistent pair of values
preserves buffer consistency. -/
theorem bufConsistent_ite {tbl : List (Rgb × Nat)} {h w : Nat}
    {m : Grid Rgba} {om : Grid Nat} (C : Nat → Nat → Prop)
    [inst : ∀ x y, Decidable (C x y)] (pv : Rgba) (cv : Nat)
    (hpix : pixConsistent tbl pv cv) (hbuf : bufConsistent tbl h w m om) :
    bufConsistent tbl h w (fun x y => if C x y then pv else m x y)
      (fun x y => if C x y then cv else om x y) := by
  intro y hy x hx
  dsimp only
  by_cases hc : C x y
  · rw [if_pos hc, if_pos hc]
    exact hpix
  · rw [if_neg hc, if_neg hc]
    exact hbuf y hy x hx

theorem plookup_ne_nil {κ β : Type} [DecidableEq κ] {d : List (κ × β)}
    {k : κ} {v : β} (h : plookup d k = some v) : ¬ d = [] := by
  intro hn
  rw [hn] at h
  simp [plookup] at h

theorem lookupD_mem {d : List (Rgb × Nat)} {k : Rgb} {v : Nat}
    (h : lookupD d k = some v) : (k, v) ∈ d := plookup_mem h

theorem stateConsistent_build {s t : AnnotState} (ha : admin t = admin s)
    (hm : bufConsistent s.d_rgb2gray s.hgt s.wdt t.mask t.offscreen_mask)
    (hst : List.Forall₂ (bufConsistent s.d_rgb2gray s.hgt s.wdt)
      t.overlay_stack t.offscreen_mask_stack) :
    stateConsistent t := by
  have hf := admin_fields ha
  unfold stateConsistent
  rw [hf.2.2.2.2.2.2.2.1, hf.1, hf.2.1]
  exact ⟨hm, hst⟩

theorem goodState_build {s t : AnnotState} (ha : admin t = admin s)
    (hg : goodState s)
    (hm : bufConsistent s.d_rgb2gray s.hgt s.wdt t.mask t.offscreen_mask)
    (hst : List.Forall₂ (bufConsistent s.d_rgb2gray s.hgt s.wdt)
      t.overlay_stack t.offscreen_mask_stack) :
    goodState t := by
  have hf := admin_fields ha
  obtain ⟨hd, htbl, ⟨tc, htc⟩, hba, _⟩ := hg
  refine ⟨hf.2.2.2.1.trans hd, ?_, ⟨tc, ?_⟩, ?_, stateConsistent_build ha hm hst⟩
  · rw [hf.2.2.2.2.2.2.2.1]
    exact htbl
  · rw [hf.2.2.2.2.2.2.2.1, hf.2.2.2.2.1]
    exact htc
  · rw [hf.2.2.2.2.1]
    exact hba

theorem goodState_snapshotPush {s : AnnotState} (hg : goodState s) :
    goodState (snapshotPush s) := by
  have hs := snapshotPush_admin s
  refine goodState_build hs.1 hg ?_ ?_
  · rw [hs.2.1, hs.2.2.1]
    exact hg.2.2.2.2.1
  · rw [hs.2.2.2.2.1, hs.2.2.2.2.2, if_pos hg.1, pushB_cons, pushB_cons]
    exact List.Forall₂.cons hg.2.2.2.2.1 (List.forall₂_take _ hg.2.2.2.2.2)

/-- The buffer contents written by `fillMarker` in a state whose brush color
is in the table. -/
theorem fillMarker_some (ev : Int × Int) (t : AnnotState) (tc : Nat)
    (hd : t.direct_mask_paint = true)
    (htc : lookupD t.d_rgb2gray t.brush_fill_color.rgb = some tc) :
    (fillMarker ev t).2 = false ∧
    ((fillMarker ev t).1).mask = (fun x y =>
      if inDisc ev.1 ev.2 t.brush_diameter x y then
        (if t.eraseMode then ⟨0, 0, 0, 0⟩ else t.brush_fill_color)
      else t.mask x y) ∧
    ((fillMarker ev t).1).offscreen_mask = (fun x y =>
      if inDisc ev.1 ev.2 t.brush_diameter x y then
        (if t.eraseMode then 0 else tc)
      else t.offscreen_mask x y) := by
  unfold fillMarker
  dsimp only
  rw [if_pos hd, if_neg (plookup_ne_nil htc), htc]
  exact ⟨rfl, rfl, rfl⟩

/-- The buffer contents written by `drawMarkerLine` in a state whose brush
color is in the table. -/
theorem drawMarkerLine_some (ev : Int × Int) (t : AnnotState) (tc : Nat)
    (hd : t.direct_mask_paint = true)
    (htc : lookupD t.d_rgb2gray t.brush_fill_color.rgb = some tc) :
    (drawMarkerLine ev t).2 = false ∧
    ((drawMarkerLine ev t).1).mask = (fun x y =>
      if inCapsule t.lastPoint ev t.brush_diameter x y then
        (if t.eraseMode then ⟨0, 0, 0, 0⟩ else t.brush_fill_color)
      else t.mask x y) ∧
    ((drawMarkerLine ev t).1).offscreen_mask = (fun x y =>
      if inCapsule t.lastPoint ev t.brush_diameter x y then
        (if t.eraseMode then 0 else tc)
      else t.offscreen_mask x y) := by
  unfold drawMarkerLine
  dsimp only
  rw [if_pos hd, if_neg (plookup_ne_nil htc), htc]
  exact ⟨rfl, rfl, rfl⟩

theorem goodState_fillMarker (ev : Int × Int) {s : AnnotState}
    (hg : goodState s) :
    goodState ((fillMarker ev s).1) ∧ (fillMarker ev s).2 = false := by
  obtain ⟨hd, htbl, ⟨tc, htc⟩, hba, hcons⟩ := hg
  obtain ⟨h2, hmm, hoo⟩ := fillMarker_some ev s tc hd htc
  have hadm := fillMarker_admin ev s
  refine ⟨goodState_build hadm.1 ⟨hd, htbl, ⟨tc, htc⟩, hba, hcons⟩ ?_ ?_, h2⟩
  · rw [hmm, hoo]
    exact bufConsistent_ite _ _ _
      (pixConsistent_mode _ _ htbl (lookupD_mem htc) hba) hcons.1
  · rw [hadm.2.1, hadm.2.2]
    exact hcons.2

theorem goodState_drawMarkerLine (ev : Int × Int) {s : AnnotState}
    (hg : goodState s) :
    goodState ((drawMarkerLine ev s).1) ∧ (drawMarkerLine ev s).2 = false := by
  obtain ⟨hd, htbl, ⟨tc, htc⟩, hba, hcons⟩ := hg
  obtain ⟨h2, hmm, hoo⟩ := drawMarkerLine_some ev s tc hd htc
  have hadm := drawMarkerLine_admin ev s
  refine ⟨goodState_build hadm.1 ⟨hd, htbl, ⟨tc, htc⟩, hba, hcons⟩ ?_ ?_, h2⟩
  · rw [hmm, hoo]
    exact bufConsistent_ite _ _ _
      (pixConsistent_mode _ _ htbl (lookupD_mem htc) hba) hcons.1
  · rw [hadm.2.1, hadm.2.2]
    exact hcons.2

/-- The off-screen mask written by a successful direct-mode floodAdd. -/
theorem fillAdd_offscreen_direct (t : AnnotState) (tc : Nat)
    (hb : seedInBounds t) (hd : t.direct_mask_paint = true)
    (htc : lookupD t.d_rgb2gray t.brush_fill_color.rgb = some tc) :
    ((fillArea false true t).1).offscreen_mask = fun x y =>
      if paintinOf t false true (x, y) = 255 then tc
      else t.offscreen_mask x y := by
  unfold fillArea
  dsimp only
  rw [if_pos hb, if_pos hd, if_neg (by simp : ¬ (false = true)), htc]

theorem goodState_fillAdd {s : AnnotState} (hg : goodState s) :
    goodState ((fillArea false true s).1) := by
  obtain ⟨hd, htbl, ⟨tc, htc⟩, hba, hcons⟩ := hg
  have hgood : goodState s := ⟨hd, htbl, ⟨tc, htc⟩, hba, hcons⟩
  by_cases hb : seedInBounds s
  · have hmm := fillAdd_mask_paint s hb (Or.inr ⟨tc, htc⟩)
    have hoo := fillAdd_offscreen_direct s tc hb hd htc
    have hadm := fillArea_admin false true s
    refine goodState_build hadm.1 hgood ?_ ?_
    · rw [hmm, hoo]
      exact bufConsistent_ite _ _ _
        (pixConsistent_brush htbl (lookupD_mem htc) hba) hcons.1
    · rw [hadm.2.1, hadm.2.2, if_pos hd, pushB_cons, pushB_cons]
      exact List.Forall₂.cons hcons.1 (List.forall₂_take _ hcons.2)
  · rw [fillArea_oob false true s hb]
    exact goodState_snapshotPush hgood

theorem goodState_fillRemove (rocc : Bool) {s : AnnotState}
    (hg : goodState s) : goodState ((fillArea true rocc s).1) := by
  obtain ⟨hd, htbl, ⟨tc, htc⟩, hba, hcons⟩ := hg
  have hgood : goodState s := ⟨hd, htbl, ⟨tc, htc⟩, hba, hcons⟩
  by_cases hb : seedInBounds s
  · have hmm := fillRemove_mask s rocc hb
    have hoo := fillRemove_offscreen_direct s rocc hb hd
    have hadm := fillArea_admin true rocc s
    refine goodState_build hadm.1 hgood ?_ ?_
    · rw [hmm, hoo]
      exact bufConsistent_ite _ _ _ (pixConsistent_clear _) hcons.1
    · rw [hadm.2.1, hadm.2.2, if_pos hd, pushB_cons, pushB_cons]
      exact List.Forall₂.cons hcons.1 (List.forall₂_take _ hcons.2)
  · rw [fillArea_oob true rocc s hb]
    exact goodState_snapshotPush hgood

theorem goodState_repaintArea {s : AnnotState} (hg : goodState s) :
    goodState ((repaintArea s).1) := by
  obtain ⟨hd, htbl, ⟨tc, htc⟩, hba, hcons⟩ := hg
  have hgood : goodState s := ⟨hd, htbl, ⟨tc, htc⟩, hba, hcons⟩
  by_cases hb : seedInBounds s
  · have hmm := repaint_mask_paint s hb (Or.inr ⟨tc, htc⟩)
    have hoo := repaint_offscreen_paint s tc hb hd htc
    have hadm := repaintArea_admin s
    refine goodState_build hadm.1 hgood ?_ ?_
    · rw [hmm, hoo]
      exact bufConsistent_ite _ _ _
        (pixConsistent_brush htbl (lookupD_mem htc) hba) hcons.1
    · rw [hadm.2.1, hadm.2.2, if_pos hd, pushB_cons, pushB_cons]
      exact List.Forall₂.cons hcons.1 (List.forall₂_take _ hcons.2)
  · rw [repaintArea_oob s hb]
    exact goodState_snapshotPush hgood

theorem goodState_setMode (ctrl : Bool) {s : AnnotState} (hg : goodState s) :
    goodState (setModeFromCtrl ctrl s) := by
  have hs := setModeFromCtrl_admin ctrl s
  refine goodState_build hs.1 hg ?_ ?_
  · rw [hs.2.2.2.1, hs.2.2.2.2]
    exact hg.2.2.2.2.1
  · rw [hs.2.1, hs.2.2.1]
    exact hg.2.2.2.2.2

theorem goodState_undoZ {s : AnnotState} (hg : goodState s) :
    goodState (undoZ s) := by
  obtain ⟨hd, htbl, htc, hba, hcons⟩ := hg
  cases hov : s.overlay_stack with
  | nil =>
    have hoff : s.offscreen_mask_stack = [] := by
      have h2 := hcons.2
      rw [hov] at h2
      exact List.forall₂_nil_left_iff.mp h2
    rw [undoZ_of_nil hov (fun _ => hoff)]
    exact ⟨hd, htbl, htc, hba, hcons⟩
  | cons m L =>
    have h2 := hcons.2
    rw [hov] at h2
    cases hoffc : s.offscreen_mask_stack with
    | nil =>
      rw [hoffc] at h2
      cases h2
    | cons om L2 =>
      rw [hoffc] at h2
      cases h2 with
      | cons hhead htail =>
        obtain ⟨hm, hov2, _, hdir⟩ := undoZ_of_cons hov
        obtain ⟨hom, hoff2⟩ := hdir om L2 hd hoffc
        refine goodState_build (undoZ_admin s) ⟨hd, htbl, htc, hba, hcons⟩ ?_ ?_
        · rw [hm, hom]
          exact hhead
        · rw [hov2, hoff2]
          exact htail

theorem goodState_mousePressLeft (ev : Int × Int) (alt shift ctrl : Bool)
    {s : AnnotState} (h : s.hasImage = true) (hg : goodState s) :
    goodState (mousePressLeft ev alt shift ctrl s) := by
  have hg1 := goodState_snapshotPush hg
  have hg2 : goodState (pressAltPhase alt (snapshotPush s)) := by
    cases alt
    · exact hg1
    · simpa [pressAltPhase] using goodState_repaintArea hg1
  have hline : goodState ((pressShiftPhase ev shift (pressAltPhase alt (snapshotPush s))).1) ∧
      (pressShiftPhase ev shift (pressAltPhase alt (snapshotPush s))).2 = false := by
    cases shift
    · exact ⟨hg2, rfl⟩
    · simpa [pressShiftPhase] using goodState_drawMarkerLine ev hg2
  have hgm : goodState (pressMarkerPhase ev alt ctrl
      (pressShiftPhase ev shift (pressAltPhase alt (snapshotPush s))).1) := by
    unfold pressMarkerPhase
    cases alt
    · simpa using (goodState_fillMarker ev (goodState_setMode ctrl hline.1)).1
    · simpa using goodState_setMode ctrl hline.1
  unfold mousePressLeft
  rw [if_pos h]
  dsimp only
  rw [hline.2]
  simpa using hgm

/-- C2: in direct mode — with the color table sane, the brush color present
in it and the brush opaque, as the application guarantees — every mutating
operation (stamp, stroke, floodAdd, floodRemove, recolor, undo) preserves
pixel-consistency of the MaskLayer with the ClassBuffer: painted pixels
carry the class code of their (tolerance-matched) table color and
transparent pixels carry class 0, on the live buffers and on every undo
frame. -/
theorem C2_direct_mode_consistency (op : EditOp) (s : AnnotState) (tc : Nat)
    (hready : s.hasImage = true)
    (hdir : s.direct_mask_paint = true)
    (htbl : tableOk s.d_rgb2gray)
    (htc : lookupD s.d_rgb2gray s.brush_fill_color.rgb = some tc)
    (hba : s.brush_fill_color.a ≠ 0)
    (hcons : stateConsistent s) :
    stateConsistent (applyEditOp op s) := by
  have hg : goodState s := ⟨hdir, htbl, ⟨tc, htc⟩, hba, hcons⟩
  have hres : goodState (applyEditOp op s) := by
    cases op with
    | undo =>
      show goodState (keyZ true s)
      unfold keyZ
      rw [hready]
      simpa using goodState_undoZ hg
    | mutate o =>
      cases o with
      | stamp ev ctrl => exact goodState_mousePressLeft ev false false ctrl hready hg
      | stroke ev ctrl => exact goodState_mousePressLeft ev false true ctrl hready hg
      | floodAdd =>
        show goodState (keyF s)
        unfold keyF
        rw [if_pos hready]
        exact goodState_fillAdd hg
      | floodRemove restrict =>
        cases restrict with
        | true =>
          show goodState (keyX true s)
          unfold keyX
          rw [hready]
          simpa using goodState_fillRemove true hg
        | false =>
          show goodState (keyQ true s)
          unfold keyQ
          rw [hready]
          simpa using goodState_fillRemove false hg
      | recolor ev ctrl => exact goodState_mousePressLeft ev true false ctrl hready hg
  exact hres.2.2.2.2

/-! ## Concrete evaluations of the theorems above on a small canvas -/

instance decPixConsistent (tbl : List (Rgb × Nat)) (p : Rgba) (c : Nat) :
    Decidable (pixConsistent tbl p c) := by
  unfold pixConsistent
  infer_instance

instance decBufConsistent (tbl : List (Rgb × Nat)) (h w : Nat) (m : Grid Rgba)
    (om : Grid Nat) : Decidable (bufConsistent tbl h w m om) := by
  unfold bufConsistent
  infer_instance

instance decTableOk (tbl : List (Rgb × Nat)) : Decidable (tableOk tbl) := by
  unfold tableOk
  infer_instance

/-- A 3x3 mask with two isolated red pixels at (0,0) and (2,2), the rest
transparent and canonically zeroed. -/
def exMask : Grid Rgba := fun x y =>
  if (x == 0 && y == 0) || (x == 2 && y == 2) then ⟨255, 0, 0, 99⟩
  else ⟨0, 0, 0, 0⟩

/-- The matching off-screen class buffer: class 1 under the red pixels. -/
def exOff : Grid Nat := fun x y =>
  if (x == 0 && y == 0) || (x == 2 && y == 2) then 1 else 0

/-- A small annotator state: image loaded, direct mode on, a two-row color
table, red brush, cursor on the occupied pixel (0,0), empty undo stacks. -/
def exState : AnnotState where
  hgt := 3
  wdt := 3
  hasImage := true
  mask := exMask
  direct_mask_paint := true
  offscreen_mask := exOff
  overlay_stack := []
  offscreen_mask_stack := []
  brush_fill_color := ⟨255, 0, 0, 99⟩
  brush_diameter := 2
  eraseMode := false
  global_erase_override := false
  d_rgb2gray := [((255, 0, 0), 1), ((0, 0, 255), 2)]
  d_gray2rgb := [(1, (255, 0, 0)), (2, (0, 0, 255))]
  lastPoint := (0, 0)
  lastCursorLocation := (0, 0)

/-- The same state with the cursor moved outside the image. -/
def exStateOOB : AnnotState := { exState with lastCursorLocation := (-1, 0) }

/-- C1 evaluated: on the concrete state, undo after a flood fill restores
both buffers. -/
theorem C1_witness :
    exState.hasImage = true ∧
    ((keyZ true (applyMutOp MutOp.floodAdd exState)).mask = exState.mask ∧
      (exState.direct_mask_paint = true →
        (keyZ true (applyMutOp MutOp.floodAdd exState)).offscreen_mask =
          exState.offscreen_mask)) :=
  ⟨rfl, C1_undo_restores_buffers MutOp.floodAdd exState rfl⟩

/-- C2 evaluated: the concrete state satisfies every hypothesis and stays
consistent after a flood fill. -/
theorem C2_witness :
    (exState.hasImage = true ∧ exState.direct_mask_paint = true ∧
      tableOk exState.d_rgb2gray ∧
      lookupD exState.d_rgb2gray exState.brush_fill_color.rgb = some 1 ∧
      exState.brush_fill_color.a ≠ 0 ∧ stateConsistent exState) ∧
    stateConsistent (applyEditOp (EditOp.mutate MutOp.floodAdd) exState) :=
  ⟨⟨rfl, rfl, by decide, by decide, by decide, ⟨by decide, List.Forall₂.nil⟩⟩,
    C2_direct_mode_consistency (EditOp.mutate MutOp.floodAdd) exState 1 rfl rfl
      (by decide) (by decide) (by decide) ⟨by decide, List.Forall₂.nil⟩⟩

/-- C4 evaluated: the concrete state satisfies the occupancy, color-match
and canonical-zero hypotheses, and the restricted flood removal clears
exactly the matching component of the seed. -/
theorem C4_witness :
    (seedInBounds exState ∧
      0 < (exState.mask (seedOf exState).1 (seedOf exState).2).a ∧
      colorNear (exState.mask (seedOf exState).1 (seedOf exState).2)
        exState.brush_fill_color = true ∧
      (∀ y, y < exState.hgt → ∀ x, x < exState.wdt →
        (exState.mask x y).a = 0 → exState.mask x y = ⟨0, 0, 0, 0⟩) ∧
      (exState.direct_mask_paint = true → ∀ y, y < exState.hgt →
        ∀ x, x < exState.wdt → (exState.mask x y).a = 0 →
          exState.offscreen_mask x y = 0)) ∧
    (∀ y, y < exState.hgt → ∀ x, x < exState.wdt →
      (Reach exState.wdt exState.hgt (occMatchB exState) (seedOf exState) (x, y) →
        ((fillArea true true exState).1).mask x y = ⟨0, 0, 0, 0⟩ ∧
        (exState.direct_mask_paint = true →
          ((fillArea true true exState).1).offscreen_mask x y = 0)) ∧
      (¬ Reach exState.wdt exState.hgt (occMatchB exState) (seedOf exState) (x, y) →
        ((fillArea true true exState).1).mask x y = exState.mask x y ∧
        ((fillArea true true exState).1).offscreen_mask x y =
          exState.offscreen_mask x y)) :=
  ⟨⟨by decide, by decide, by decide, by decide, by decide⟩,
    C4_floodRemove_exact exState (by decide) (by decide) (by decide)
      (by decide) (by decide)⟩

/-- C5 evaluated: the concrete state satisfies the recolor hypotheses, and
recolor repaints exactly the occupied component of the seed with brush
color and class 1. -/
theorem C5_witness :
    (seedInBounds exState ∧
      0 < (exState.mask (seedOf exState).1 (seedOf exState).2).a ∧
      0 < exState.brush_fill_color.a ∧
      (exState.direct_mask_paint = true →
        lookupD exState.d_rgb2gray exState.brush_fill_color.rgb = some 1)) ∧
    (∀ y, y < exState.hgt → ∀ x, x < exState.wdt →
      (Reach exState.wdt exState.hgt (occB exState) (seedOf exState) (x, y) →
        ((repaintArea exState).1).mask x y = exState.brush_fill_color ∧
        (exState.direct_mask_paint = true →
          ((repaintArea exState).1).offscreen_mask x y = 1)) ∧
      (¬ Reach exState.wdt exState.hgt (occB exState) (seedOf exState) (x, y) →
        ((repaintArea exState).1).mask x y = exState.mask x y ∧
        ((repaintArea exState).1).offscreen_mask x y =
          exState.offscreen_mask x y) ∧
      (0 < (((repaintArea exState).1).mask x y).a ↔ 0 < (exState.mask x y).a)) :=
  ⟨⟨by decide, by decide, by decide, fun _ => by decide⟩,
    C5_recolor_exact exState 1 (by decide) (by decide) (by decide)
      (fun _ => by decide)⟩

/-- C6 evaluated: 21 flood fills on a fresh concrete state leave 20 undo
frames; the 20 first undos each find one, the 21st is a strict no-op. -/
theorem C6_witness :
    (exState.hasImage = true ∧ exState.overlay_stack = [] ∧
      exState.offscreen_mask_stack = [] ∧
      (List.replicate (MAX_CTRLZ_STATES + 1) MutOp.floodAdd).length =
        MAX_CTRLZ_STATES + 1) ∧
    ((∀ k, k < MAX_CTRLZ_STATES →
        (undoIter k (applyOps (List.replicate (MAX_CTRLZ_STATES + 1)
          MutOp.floodAdd) exState)).overlay_stack ≠ []) ∧
      (undoIter MAX_CTRLZ_STATES (applyOps (List.replicate (MAX_CTRLZ_STATES + 1)
        MutOp.floodAdd) exState)).overlay_stack = [] ∧
      keyZ true (undoIter MAX_CTRLZ_STATES (applyOps
          (List.replicate (MAX_CTRLZ_STATES + 1) MutOp.floodAdd) exState)) =
        undoIter MAX_CTRLZ_STATES (applyOps
          (List.replicate (MAX_CTRLZ_STATES + 1) MutOp.floodAdd) exState)) :=
  ⟨⟨rfl, rfl, rfl, by simp⟩,
    C6_undo_capacity (List.replicate (MAX_CTRLZ_STATES + 1) MutOp.floodAdd)
      exState rfl rfl rfl (by simp)⟩

/-- C7 (amended) evaluated: initializing a fresh annotator in direct mode
with no table succeeds, and the first direct-mode paint raises, leaving the
class buffer untouched. -/
theorem C7_witness :
    emptyState.d_rgb2gray = [] ∧
    ((clearAndSetImageAndMask 3 3 (MaskArg.gray fun _ _ => 0) false true
        emptyState).2 = false ∧
      ((clearAndSetImageAndMask 3 3 (MaskArg.gray fun _ _ => 0) false true
        emptyState).1).direct_mask_paint = true ∧
      (fillMarker (0, 0) ((clearAndSetImageAndMask 3 3 (MaskArg.gray fun _ _ => 0)
        false true emptyState).1)).2 = true ∧
      (fillMarker (0, 0) ((clearAndSetImageAndMask 3 3 (MaskArg.gray fun _ _ => 0)
            false true emptyState).1)).1.offscreen_mask =
        ((clearAndSetImageAndMask 3 3 (MaskArg.gray fun _ _ => 0) false true
          emptyState).1).offscreen_mask) :=
  ⟨rfl, C7_amended_fail_at_first_paint 3 3 (fun _ _ => 0) (0, 0) emptyState rfl⟩

/-- C9 evaluated: with the cursor outside the concrete canvas, every
flood-based operation leaves both buffers unchanged. -/
theorem C9_witness :
    (exStateOOB.hasImage = true ∧ ¬ seedInBounds exStateOOB) ∧
    ((keyF exStateOOB).mask = exStateOOB.mask ∧
      (keyF exStateOOB).offscreen_mask = exStateOOB.offscreen_mask ∧
      (keyX true exStateOOB).mask = exStateOOB.mask ∧
      (keyX true exStateOOB).offscreen_mask = exStateOOB.offscreen_mask ∧
      (keyQ true exStateOOB).mask = exStateOOB.mask ∧
      (keyQ true exStateOOB).offscreen_mask = exStateOOB.offscreen_mask ∧
      (mousePressLeft (0, 0) true false false exStateOOB).mask =
        exStateOOB.mask ∧
      (mousePressLeft (0, 0) true false false exStateOOB).offscreen_mask =
        exStateOOB.offscreen_mask) :=
  ⟨⟨rfl, by decide⟩,
    C9_oob_seed_noop exStateOOB (0, 0) false rfl (by decide)⟩

/-- C10 evaluated: an Alt + left click recolor on the concrete state pushes
exactly two copies of each pre-recolor buffer. -/
theorem C10_witness :
    exState.hasImage = true ∧
    ((mousePressLeft (0, 0) true false false exState).overlay_stack =
        exState.mask :: exState.mask ::
          exState.overlay_stack.take (MAX_CTRLZ_STATES - 2) ∧
      (mousePressLeft (0, 0) true false false exState).overlay_stack.length =
        min MAX_CTRLZ_STATES (exState.overlay_stack.length + 2) ∧
      (exState.direct_mask_paint = true →
        (mousePressLeft (0, 0) true false false exState).offscreen_mask_stack =
          exState.offscreen_mask :: exState.offscreen_mask ::
            exState.offscreen_mask_stack.take (MAX_CTRLZ_STATES - 2))) :=
  ⟨rfl, C10_recolor_double_snapshot (0, 0) false exState rfl⟩

end Datm
